import Mathlib

/-!
Verification development for the contract-analysis pipeline
(clause extraction, definition extraction, named-entity extraction,
risk detection and scoring, contract-type classification).

Text is modelled as `List Char`.  Python regular expressions appearing in
the source are transliterated pattern-by-pattern into executable scanning
functions that reproduce the reference engine's leftmost, non-overlapping
`finditer` semantics together with the greedy/lazy backtracking behaviour
of each concrete pattern.  Character classes are modelled over ASCII
(`\s`, `\d`, `\w`, `str.lower()`, `str.strip()`), which is exact for all
ASCII inputs.
-/

/-- Text is a list of characters. -/
abbrev Str := List Char

/-- Conversion from a string literal. -/
def str (s : String) : Str := s.toList

/-- ASCII whitespace, as matched by the reference `\s` and stripped by
`str.strip()`: space, tab, newline, carriage return, vertical tab, form feed. -/
def pySpace (c : Char) : Bool :=
  c.toNat == 32 || c.toNat == 9 || c.toNat == 10 || c.toNat == 13 || c.toNat == 11 ||
    c.toNat == 12

/-- ASCII digit, as matched by `\d` (codes 48-57). -/
def pyDigit (c : Char) : Bool := 48 ≤ c.toNat && c.toNat ≤ 57

/-- Uppercase ASCII letter, the class `[A-Z]` (codes 65-90). -/
def upperAZ (c : Char) : Bool := 65 ≤ c.toNat && c.toNat ≤ 90

/-- Lowercase ASCII letter, the class `[a-z]` (codes 97-122). -/
def lowerAZ (c : Char) : Bool := 97 ≤ c.toNat && c.toNat ≤ 122

/-- ASCII letter. -/
def asciiAlpha (c : Char) : Bool := upperAZ c || lowerAZ c

/-- Word character, as used by the `\b` boundary assertion: `[A-Za-z0-9_]`. -/
def wordChar (c : Char) : Bool := asciiAlpha c || pyDigit c || c == '_'

/-- Sentence terminator from the risk-detection pattern: the class `[.!?]`. -/
def isTermCh (c : Char) : Bool := c == '.' || c == '!' || c == '?'

/-- Lowercasing a text, as done by `text.lower()` (ASCII). -/
def lowerS (s : Str) : Str := s.map Char.toLower

/-- Python `str.strip()`: remove leading and trailing whitespace. -/
def pyStrip (s : Str) : Str :=
  ((s.dropWhile pySpace).reverse.dropWhile pySpace).reverse

/-- Python `str.rstrip(cut)`: remove trailing characters belonging to `cut`. -/
def pyRstrip (cut : List Char) (s : Str) : Str :=
  (s.reverse.dropWhile (fun c => cut.contains c)).reverse

/-- Python slicing `t[a:b]` for `a ≤ b` (and clamped at the ends). -/
def pySlice (t : Str) (a b : Nat) : Str := (t.drop a).take (b - a)

/-- Character at an absolute position. -/
def charAt (t : Str) (i : Nat) : Option Char := t.get? i

/-- Python substring test `needle in hay`. -/
def hasSub (needle hay : Str) : Bool :=
  if needle.isPrefixOf hay then true
  else
    match hay with
    | [] => false
    | _ :: rest => hasSub needle rest

/-- Case-insensitive literal prefix match (ASCII), used for `re.IGNORECASE`
literals. -/
def ciPre : Str → Str → Bool
  | [], _ => true
  | _ :: _, [] => false
  | p :: ps, c :: cs => (Char.toLower p == Char.toLower c) && ciPre ps cs

/-- Length of the maximal run of characters satisfying `p` starting at
position `i`; this is how a greedy character-class repetition consumes. -/
def runLen (p : Char → Bool) (t : Str) (i : Nat) : Nat :=
  ((t.drop i).takeWhile p).length

/-- First position among `j, j+1, …, j+k-1` satisfying `p` (scanning upward,
as a lazy repetition extends). -/
def firstFrom (p : Nat → Bool) (j : Nat) : Nat → Option Nat
  | 0 => none
  | k + 1 => if p j then some j else firstFrom p (j + 1) k

/-- First value among `lo+k, lo+k-1, …, lo` satisfying `p` (scanning downward,
as a greedy repetition backtracks). -/
def firstDown (p : Nat → Bool) (lo : Nat) : Nat → Option Nat
  | 0 => if p lo then some lo else none
  | k + 1 => if p (lo + k + 1) then some (lo + k + 1) else firstDown p lo k

/-- Recursion core of `scanIter`, structurally recursive on a fuel counter;
the position strictly increases at every step, so `n + 1 - p` units of fuel
always suffice. -/
def scanIterGo {α : Type} (n : Nat) (m : Nat → Option α) (endO : α → Nat) :
    Nat → Nat → List (Nat × α)
  | 0, _ => []
  | fuel + 1, p =>
    if p ≤ n then
      match m p with
      | some a => (p, a) :: scanIterGo n m endO fuel (max (p + 1) (endO a))
      | none => scanIterGo n m endO fuel (p + 1)
    else []

/-- Non-overlapping scan of `re.finditer`: attempt an anchored match at each
position from left to right; after a match, resume at its end (and always
advance at least one position, which is what the reference scanner does for
empty matches — all patterns modelled here only produce non-empty matches). -/
def scanIter {α : Type} (n : Nat) (m : Nat → Option α) (endO : α → Nat) (p : Nat) :
    List (Nat × α) :=
  scanIterGo n m endO (n + 1 - p) p

/-! ## Clause extraction (`clause_extraction.py`) -/

/-- Sub-clause record: `{ number, content }`. -/
structure SubClause where
  number : Str
  content : Str
deriving DecidableEq, Repr

/-- Clause record: `{ number, heading, content, full_content, subclauses }`. -/
structure Clause where
  number : Str
  heading : Str
  content : Str
  full_content : Str
  subclauses : List SubClause
deriving DecidableEq, Repr

/-- `^` of a MULTILINE pattern: start of text or just after a newline. -/
def atLineStart (t : Str) (i : Nat) : Bool :=
  i == 0 || (charAt t (i - 1) == some '\n')

/-- Heading characters: the class `[A-Z\s]`. -/
def headChar (c : Char) : Bool := upperAZ c || pySpace c

/-- The lookahead `(?=^\d+\.|$)` of the clause pattern under MULTILINE:
either end of text, or immediately before a newline, or a line start
followed by one or more digits and a period (the greedy `\d+` must end at
a `.`, equivalently the maximal digit run is followed by `.`). -/
def clauseLook (t : Str) (j : Nat) : Bool :=
  (j == t.length) || (charAt t j == some '\n') ||
    (atLineStart t j && runLen pyDigit t j != 0 &&
      charAt t (j + runLen pyDigit t j) == some '.')

/-- Anchored match of the clause pattern `^(\d+)\.\s+([A-Z][A-Z\s]*?)(?=^\d+\.|$)`
(MULTILINE) at position `i`.  Returns `(d, hs, he)`: the digit-run length of
group 1, the heading start, and the heading end (= match end, the lookahead
being zero-width).  `\s+` is effectively forced to its maximal run: giving a
character back hands a whitespace character to `[A-Z]`, which always fails.
The lazy `[A-Z\s]*?` stops at the first position where the lookahead holds,
extending only through `[A-Z\s]` characters. -/
def clauseMatchAt (t : Str) (i : Nat) : Option (Nat × Nat × Nat) :=
  if atLineStart t i then
    let d := runLen pyDigit t i
    if d != 0 then
      if charAt t (i + d) == some '.' then
        let w := runLen pySpace t (i + d + 1)
        if w != 0 then
          let hs := i + d + 1 + w
          match charAt t hs with
          | some c =>
            if upperAZ c then
              let r := runLen headChar t (hs + 1)
              match firstFrom (fun j => clauseLook t j) (hs + 1) (r + 1) with
              | some he => some (d, hs, he)
              | none => none
            else none
          | none => none
        else none
      else none
    else none
  else none

/-- The lookahead `(?=^\d+\.\d+|$)` of the sub-clause pattern. -/
def subLook (t : Str) (j : Nat) : Bool :=
  (j == t.length) || (charAt t j == some '\n') ||
    (atLineStart t j &&
      (let d1 := runLen pyDigit t j
       d1 != 0 && charAt t (j + d1) == some '.' &&
         runLen pyDigit t (j + d1 + 1) != 0))

/-- Anchored match of the sub-clause pattern `^(\d+\.\d+)\s+(.+?)(?=^\d+\.\d+|$)`
(MULTILINE, no DOTALL: `.` does not match a newline) at position `i`.
Returns `(g1len, cs, ce)`: length of group 1, content start, content end
(= match end).  The greedy `\s+` backtracks until the first content character
is one `.` can match (any character other than a newline); the lazy `(.+?)`
then stops at the first position where the lookahead holds, which — since
its characters cannot include a newline, so `^` can never fire inside the
run — is the first end of line after at least one character. -/
def subMatchAt (t : Str) (i : Nat) : Option (Nat × Nat × Nat) :=
  if atLineStart t i then
    let d1 := runLen pyDigit t i
    if d1 != 0 then
      if charAt t (i + d1) == some '.' then
        let d2 := runLen pyDigit t (i + d1 + 1)
        if d2 != 0 then
          let g1e := i + d1 + 1 + d2
          let w := runLen pySpace t g1e
          if w != 0 then
            match firstDown (fun k =>
                match charAt t (g1e + k) with
                | some c => c != '\n'
                | none => false) 1 (w - 1) with
            | some k =>
              let cs := g1e + k
              let r := runLen (fun c => c != '\n') t (cs + 1)
              match firstFrom (fun j => subLook t j) (cs + 1) (r + 1) with
              | some ce => some (d1 + 1 + d2, cs, ce)
              | none => none
            | none => none
          else none
        else none
      else none
    else none
  else none

/-- `_extract_subclauses`: scan the content for sub-clause matches and build
the records; group 2 is stripped and truncated to 200 characters. -/
def extract_subclauses (s : Str) : List SubClause :=
  (scanIter s.length (subMatchAt s) (fun m => m.2.2) 0).map
    (fun x => { number := pySlice s x.1 (x.1 + x.2.1)
                content := (pyStrip (pySlice s x.2.2.1 x.2.2.2)).take 200 })

/-- Build the clause records from the list of matches: each clause's content
is the text strictly between its heading end and the next match start (or
end of text), stripped; `content` is its first 500 characters and
`full_content` the whole stripped span. -/
def buildClauses (t : Str) : List (Nat × Nat × Nat × Nat) → List Clause
  | [] => []
  | (i, d, hs, he) :: rest =>
    let cend := match rest with
      | [] => t.length
      | (i2, _, _, _) :: _ => i2
    let content := pyStrip (pySlice t he cend)
    { number := pySlice t i (i + d)
      heading := pyStrip (pySlice t hs he)
      content := content.take 500
      full_content := content
      subclauses := extract_subclauses content } :: buildClauses t rest

/-- `extract_clauses`: find all non-overlapping clause-pattern matches in
document order and build the clause records. -/
def extract_clauses (t : Str) : List Clause :=
  buildClauses t
    ((scanIter t.length (clauseMatchAt t) (fun m => m.2.2) 0).map
      (fun x => (x.1, x.2.1, x.2.2.1, x.2.2.2)))

/-! ## Definition extraction (`clause_extraction.py`, `extract_definitions`) -/

/-- The trigger-word alternation `(?:means|is|shall|refers to)`, in
declaration order. -/
def triggerWords : List Str := [str "means", str "is", str "shall", str "refers to"]

/-- Is the character at position `j` a period? -/
def dotAt (t : Str) (j : Nat) : Bool := charAt t j == some '.'

/-- Backtracking test for the greedy `\s*` before group 2: stopping after
`k` whitespace characters succeeds iff a character exists there, it is not
a period (`[^.]+` needs at least one such character), and a later period
closes the group. -/
def defBT (t : Str) (u2 : Nat) (k : Nat) : Bool :=
  match charAt t (u2 + k) with
  | some c =>
    c != '.' && (firstFrom (dotAt t) (u2 + k + 1) (t.length - (u2 + k + 1))).isSome
  | none => false

/-- The fixed prefix of the definition pattern at `i`: quoted term
`"([^"]+)"`, maximal `\s*`, and the first matching trigger alternative.
Returns the stripped term capture and the position right after the
trigger word. -/
def defHead (t : Str) (i : Nat) : Option (Str × Nat) :=
  if charAt t i == some '"' then
    let q := runLen (fun c => c != '"') t (i + 1)
    if q != 0 then
      if charAt t (i + 1 + q) == some '"' then
        let u := i + 1 + q + 1
        let u1 := u + runLen pySpace t u
        match triggerWords.find? (fun w => ciPre w (t.drop u1)) with
        | some w => some (pyStrip (pySlice t (i + 1) (i + 1 + q)), u1 + w.length)
        | none => none
      else none
    else none
  else none

/-- Anchored match of the definition pattern
`"([^"]+)"\s*(?:means|is|shall|refers to)\s*([^.]+\.)` (IGNORECASE) at
position `i`.  Returns `(term, definition, match end)`, both capture groups
already stripped as the reference does.  `[^"]+` is forced to run exactly to
the next quote; the `\s*` before the trigger is forced maximal (every
trigger starts with a letter); the trigger alternatives are tried in order
and are mutually exclusive on their first letter; the `\s*` before group 2
is greedy but backtracks (largest whitespace give-back first, `firstDown`)
until `[^.]+\.` can match, i.e. until a non-period character is available
and some period follows it. -/
def defMatchAt (t : Str) (i : Nat) : Option (Str × Str × Nat) :=
  match defHead t i with
  | some (term, u2) =>
    let w2 := runLen pySpace t u2
    match firstDown (defBT t u2) 0 w2 with
    | some k =>
      let ds := u2 + k
      match firstFrom (dotAt t) (ds + 1) (t.length - (ds + 1)) with
      | some fp => some (term, pyStrip (pySlice t ds (fp + 1)), fp + 1)
      | none => none
    | none => none
  | none => none

/-- Insertion into the definitions dictionary: assigning to an existing key
overwrites its value in place, assigning a new key appends it. -/
def dictUpsert (m : List (Str × Str)) (k v : Str) : List (Str × Str) :=
  if m.any (fun kv => kv.1 == k) then
    m.map (fun kv => if kv.1 == k then (k, v) else kv)
  else m ++ [(k, v)]

/-- `extract_definitions`: scan for definition-pattern matches in document
order and fold them into a dictionary, later matches overwriting earlier
definitions of the same term. -/
def extract_definitions (t : Str) : List (Str × Str) :=
  (scanIter t.length (defMatchAt t) (fun m => m.2.2) 0).foldl
    (fun acc x => dictUpsert acc x.2.1 x.2.2.1) []

/-! ## Risk detection (`risk_detection.py`) -/

/-- One entry of the risk taxonomy. -/
structure RiskPattern where
  name : Str
  keywords : List Str
  risk_level : Str
  description : Str
deriving DecidableEq, Repr

/-- The fixed `RISK_PATTERNS` table, in declaration order. -/
def RISK_PATTERNS : List RiskPattern :=
  [ { name := str "Penalty Clauses"
      keywords := [str "penalty", str "fine", str "damages", str "liquidated",
                   str "breach", str "indemnify"]
      risk_level := str "high"
      description := str "Clauses imposing penalties for breach" }
  , { name := str "Indemnity Clauses"
      keywords := [str "indemnify", str "indemnification", str "hold harmless",
                   str "defending", str "liability"]
      risk_level := str "high"
      description := str "Clauses requiring indemnification" }
  , { name := str "Termination Clauses"
      keywords := [str "termination", str "terminate", str "terminate for cause",
                   str "terminate without cause"]
      risk_level := str "medium"
      description := str "Clauses specifying termination rights" }
  , { name := str "Lock-in Period"
      keywords := [str "lock", str "lock-in", str "locked in", str "exclusive",
                   str "no exit", str "cannot terminate"]
      risk_level := str "high"
      description := str "Clauses restricting early termination" }
  , { name := str "Auto-Renewal"
      keywords := [str "auto-renewal", str "automatic renewal", str "renew",
                   str "unless notice", str "renewal"]
      risk_level := str "medium"
      description := str "Clauses with automatic renewal" }
  , { name := str "Arbitration"
      keywords := [str "arbitration", str "arbitrator", str "binding arbitration",
                   str "arbitrate"]
      risk_level := str "medium"
      description := str "Arbitration dispute resolution clauses" }
  , { name := str "Intellectual Property"
      keywords := [str "intellectual property", str "patent", str "copyright",
                   str "trademark", str "ip", str "proprietary",
                   str "work made for hire"]
      risk_level := str "high"
      description := str "IP assignment and ownership clauses" }
  , { name := str "Confidentiality"
      keywords := [str "confidential", str "confidentiality", str "nda",
                   str "non-disclosure", str "proprietary"]
      risk_level := str "medium"
      description := str "Confidentiality and NDA clauses" }
  , { name := str "Limitation of Liability"
      keywords := [str "limitation of liability", str "limit of liability",
                   str "liable", str "not liable", str "exclude"]
      risk_level := str "medium"
      description := str "Clauses limiting liability" }
  , { name := str "Non-Competition"
      keywords := [str "non-compete", str "non-competition", str "compete",
                   str "competitor", str "restrictive covenant"]
      risk_level := str "high"
      description := str "Non-compete and restrictive covenant clauses" } ]

/-- One detected risk record. -/
structure RiskFinding where
  type : Str
  risk_level : Str
  description : Str
  evidence : Str
  severity_score : Nat
deriving DecidableEq, Repr

/-- Case-insensitive keyword occurrence test at a position of the lowered
text (the keyword is lowered once, as the table keywords already are). -/
def kwAt (tl kwl : Str) (q : Nat) : Bool := kwl.isPrefixOf (tl.drop q)

/-- Position just past the first sentence terminator `[.!?]` at or after `j`
(the lazy `[^.!?]*?` followed by `[.!?]` stops at the first terminator). -/
def scanTermF (t : Str) (j : Nat) : Option Nat :=
  (firstFrom (fun q => match charAt t q with
      | some c => isTermCh c
      | none => false) j (t.length - j)).map (fun pos => pos + 1)

/-- The part `[^.!?]*?kw[^.!?]*?[.!?]` of the sentence pattern, anchored at
`j`: the lazy `[^.!?]*?` extends one non-terminator at a time, trying the
keyword at each stop; when the keyword matches but no terminator follows,
the engine extends further.  Returns the match end. -/
def restMatch (t tl kwl : Str) (j : Nat) : Option Nat :=
  let ntr := runLen (fun c => !isTermCh c) t j
  match firstFrom (fun q => kwAt tl kwl q && (scanTermF t (q + kwl.length)).isSome)
      j (ntr + 1) with
  | some q => scanTermF t (q + kwl.length)
  | none => none

/-- First defined value among `f lo+k, f lo+k-1, …, f lo` (downward search,
how a greedy bounded repetition backtracks with its continuation). -/
def firstDownSome {α : Type} (f : Nat → Option α) (lo : Nat) : Nat → Option α
  | 0 => f lo
  | k + 1 =>
    match f (lo + k + 1) with
    | some a => some a
    | none => firstDownSome f lo k

/-- Anchored match of the sentence pattern
`.{0,150}[^.!?]*?kw[^.!?]*?[.!?]` (IGNORECASE, DOTALL) at position `i`:
the greedy `.{0,150}` tries the longest context prefix first. -/
def matchSentAt (t tl kwl : Str) (i : Nat) : Option Nat :=
  firstDownSome (fun a => restMatch t tl kwl (i + a)) 0 (min 150 (t.length - i))

/-- `_find_sentence_with_keyword`: all non-overlapping matches of the
sentence pattern, each stripped, dropped if empty, truncated to 300
characters; at most the first 3 are returned. -/
def find_sentence_with_keyword (t kw : Str) : List Str :=
  let tl := lowerS t
  let kwl := lowerS kw
  ((scanIter t.length (matchSentAt t tl kwl) id 0).filterMap (fun x =>
    let s := pyStrip (pySlice t x.1 x.2)
    if s.isEmpty then none else some (s.take 300))).take 3

/-- `_assign_severity_score`: 25/55/85 for low/medium/high, otherwise 50. -/
def assign_severity_score (level : Str) : Nat :=
  if level == str "low" then 25
  else if level == str "medium" then 55
  else if level == str "high" then 85
  else 50

/-- The inner keyword loop of `detect_risks`: return the first keyword of
the list occurring in the lowered text (the loop `break`s at the first
hit). -/
def scanKeywords (tl : Str) : List Str → Option Str
  | [] => none
  | kw :: rest => if hasSub kw tl then some kw else scanKeywords tl rest

/-- The finding record built by `detect_risks` for a category and an
evidence sentence: the evidence is truncated to 200 characters. -/
def mkRisk (rp : RiskPattern) (s : Str) : RiskFinding :=
  { type := rp.name
    risk_level := rp.risk_level
    description := rp.description
    evidence := s.take 200
    severity_score := assign_severity_score rp.risk_level }

/-- `detect_risks`: for each risk category in declaration order, find the
first keyword occurring in the lowered text; if any, build one finding per
extracted evidence sentence and append it unless an identical finding is
already recorded. -/
def detect_risks (t : Str) : List RiskFinding :=
  let tl := lowerS t
  RISK_PATTERNS.foldl (fun acc rp =>
    match scanKeywords tl rp.keywords with
    | none => acc
    | some kw =>
      (find_sentence_with_keyword t kw).foldl (fun acc2 s =>
        if acc2.contains (mkRisk rp s) then acc2 else acc2 ++ [mkRisk rp s]) acc) []

/-- `calculate_risk_score`: weighted level counts divided by the number of
findings, clamped to 100, with the three category thresholds. -/
def calculate_risk_score (rs : List RiskFinding) : Nat × Str :=
  if rs.isEmpty then (0, str "Low Risk")
  else
    let high_count := rs.countP (fun r => r.risk_level == str "high")
    let medium_count := rs.countP (fun r => r.risk_level == str "medium")
    let low_count := rs.countP (fun r => r.risk_level == str "low")
    let score := min 100
      ((high_count * 30 + medium_count * 15 + low_count * 5) / max 1 rs.length)
    if 70 ≤ score then (score, str "High Risk")
    else if 40 ≤ score then (score, str "Medium Risk")
    else (score, str "Low Risk")

/-! ## Contract classification (`contract_classifier.py`) -/

/-- One classification bucket: keyword list and minimum distinct-keyword
threshold. -/
structure ClassPattern where
  name : Str
  keywords : List Str
  min_matches : Nat
deriving DecidableEq, Repr

/-- The fixed `CLASSIFICATION_PATTERNS` table, in declaration order. -/
def CLASSIFICATION_PATTERNS : List ClassPattern :=
  [ { name := str "Employment"
      keywords := [str "employment", str "employee", str "employer", str "salary",
                   str "compensation", str "work", str "position", str "job"]
      min_matches := 3 }
  , { name := str "Lease"
      keywords := [str "lease", str "landlord", str "tenant", str "rent",
                   str "property", str "premises", str "leaseholder"]
      min_matches := 2 }
  , { name := str "Service Agreement"
      keywords := [str "service", str "services", str "service provider",
                   str "contractor", str "engagement", str "work"]
      min_matches := 3 }
  , { name := str "Vendor"
      keywords := [str "vendor", str "supplier", str "supply", str "purchasing",
                   str "goods", str "material"]
      min_matches := 2 }
  , { name := str "Partnership"
      keywords := [str "partnership", str "partner", str "joint venture",
                   str "co-founder", str "equity", str "profit", str "loss"]
      min_matches := 2 }
  , { name := str "NDA"
      keywords := [str "non-disclosure", str "nda", str "confidential",
                   str "confidentiality agreement", str "proprietary"]
      min_matches := 2 }
  , { name := str "License Agreement"
      keywords := [str "license", str "licensed", str "licensor", str "licensee",
                   str "intellectual property", str "ip"]
      min_matches := 2 }
  , { name := str "Loan Agreement"
      keywords := [str "loan", str "lender", str "borrower", str "principal",
                   str "interest", str "repayment", str "debt"]
      min_matches := 3 } ]

/-- Classification result record. -/
structure Classification where
  primary_type : Str
  confidence : Nat
  all_matches : List (Str × Nat)
  description : Str
deriving DecidableEq, Repr

/-- `_get_type_description`: static description lookup with a default. -/
def get_type_description (ct : Str) : Str :=
  if ct == str "Employment" then
    str "Agreement between employer and employee defining terms of work"
  else if ct == str "Lease" then str "Agreement for renting property or equipment"
  else if ct == str "Service Agreement" then str "Contract for provision of services"
  else if ct == str "Vendor" then
    str "Agreement for supply of goods or services from a vendor"
  else if ct == str "Partnership" then
    str "Agreement establishing partnership between parties"
  else if ct == str "NDA" then
    str "Non-disclosure agreement protecting confidential information"
  else if ct == str "License Agreement" then
    str "Agreement granting rights to use intellectual property"
  else if ct == str "Loan Agreement" then
    str "Agreement for borrowing and repayment of funds"
  else if ct == str "General Contract" then str "Contract of unknown type"
  else str "Contract of unknown type"

/-- The qualifying-bucket scores of `classify_contract`: count the keywords
of each bucket present in the lowered text and keep the buckets meeting
their threshold, in declaration order. -/
def classifyScores (t : Str) : List (Str × Nat) :=
  let tl := lowerS t
  CLASSIFICATION_PATTERNS.foldl (fun acc cp =>
    let m := cp.keywords.countP (fun kw => hasSub kw tl)
    if cp.min_matches ≤ m then acc ++ [(cp.name, m)] else acc) []

/-- The tie-breaking maximum of `max(scores, key=scores.get)`: fold keeping
the current best unless a strictly greater count appears, so the first
maximal entry wins. -/
def pyMaxSnd (s0 : Str × Nat) (rest : List (Str × Nat)) : Str × Nat :=
  rest.foldl (fun b kv => if b.2 < kv.2 then kv else b) s0

/-- `classify_contract`: the primary type is the first qualifying bucket
attaining the maximal count (Python `max` keeps the first maximum), with
confidence `min(100, count/10*100)` (exact for these integer counts); with
no qualifying bucket the result is the General Contract default. -/
def classify_contract (t : Str) : Classification :=
  match classifyScores t with
  | [] =>
    { primary_type := str "General Contract"
      confidence := 0
      all_matches := []
      description := get_type_description (str "General Contract") }
  | s0 :: rest =>
    let best := pyMaxSnd s0 rest
    { primary_type := best.1
      confidence := min 100 (best.2 * 100 / 10)
      all_matches := s0 :: rest
      description := get_type_description best.1 }

/-! ## Named-entity extraction (`ner.py`) -/

/-- Entity bundle: the dictionary returned by `extract_entities`. -/
structure EntityBundle where
  parties : List Str
  dates : List Str
  amounts : List (Str × Str)
  jurisdictions : List Str
  emails : List Str
  phone_numbers : List Str
  urls : List Str
deriving DecidableEq, Repr

/-- Model of `list(set(xs))`: the distinct elements (the reference set
iteration order is unspecified; here the first occurrence order is used). -/
def pyDedup {α : Type} [DecidableEq α] (l : List α) : List α := l.dedup

/-- Does a word character sit at this position? (out of range counts as
non-word). -/
def wordAt (t : Str) (j : Nat) : Bool :=
  match charAt t j with
  | some c => wordChar c
  | none => false

/-- The `\b` word-boundary assertion at position `j`: a word character on
exactly one side. -/
def boundary (t : Str) (j : Nat) : Bool :=
  (if j == 0 then false else wordAt t (j - 1)) != wordAt t j

/-- Anchored match of the date pattern `\b\d{1,2}/\d{1,2}/\d{4}\b` at `i`;
each greedy `\d{1,2}` tries two digits before one, with full continuation
backtracking. -/
def d1At (t : Str) (i : Nat) : Option Nat :=
  if !boundary t i then none
  else
    let step2 : Nat → Option Nat := fun j =>
      if charAt t j == some '/' && 4 ≤ runLen pyDigit t (j + 1) && boundary t (j + 5) then
        some (j + 5)
      else none
    let step1 : Nat → Option Nat := fun j =>
      if charAt t j == some '/' then
        match (if 2 ≤ runLen pyDigit t (j + 1) then step2 (j + 3) else none) with
        | some e => some e
        | none => if 1 ≤ runLen pyDigit t (j + 1) then step2 (j + 2) else none
      else none
    match (if 2 ≤ runLen pyDigit t i then step1 (i + 2) else none) with
    | some e => some e
    | none => if 1 ≤ runLen pyDigit t i then step1 (i + 1) else none

/-- English month names, in the declaration order of the alternation. -/
def monthNames : List Str :=
  [str "January", str "February", str "March", str "April", str "May", str "June",
   str "July", str "August", str "September", str "October", str "November",
   str "December"]

/-- Anchored match of `\b(January|…|December)\s+\d{1,2},?\s+\d{4}\b`
(IGNORECASE) at `i`.  No month name is a prefix of another, so at most one
alternative can match; `\s+` runs are forced maximal (a digit follows). -/
def d2At (t : Str) (i : Nat) : Option Nat :=
  if !boundary t i then none
  else
    match monthNames.find? (fun mn => ciPre mn (t.drop i)) with
    | none => none
    | some mn =>
      let j := i + mn.length
      let w1 := runLen pySpace t j
      if w1 == 0 then none
      else
        let ds := j + w1
        let tail : Nat → Option Nat := fun p =>
          let w2 := runLen pySpace t p
          if w2 != 0 && 4 ≤ runLen pyDigit t (p + w2) && boundary t (p + w2 + 4) then
            some (p + w2 + 4)
          else none
        let afterDigits : Nat → Option Nat := fun p =>
          match (if charAt t p == some ',' then tail (p + 1) else none) with
          | some e => some e
          | none => tail p
        match (if 2 ≤ runLen pyDigit t ds then afterDigits (ds + 2) else none) with
        | some e => some e
        | none => if 1 ≤ runLen pyDigit t ds then afterDigits (ds + 1) else none

/-- Anchored match of `\b\d{4}-\d{1,2}-\d{1,2}\b` at `i`. -/
def d3At (t : Str) (i : Nat) : Option Nat :=
  if boundary t i && 4 ≤ runLen pyDigit t i && charAt t (i + 4) == some '-' then
    let last : Nat → Option Nat := fun p =>
      match (if 2 ≤ runLen pyDigit t p && boundary t (p + 2) then some (p + 2) else none) with
      | some e => some e
      | none => if 1 ≤ runLen pyDigit t p && boundary t (p + 1) then some (p + 1) else none
    let mid : Nat → Option Nat := fun p =>
      match (if 2 ≤ runLen pyDigit t p && charAt t (p + 2) == some '-' then last (p + 3)
             else none) with
      | some e => some e
      | none =>
        if 1 ≤ runLen pyDigit t p && charAt t (p + 1) == some '-' then last (p + 2) else none
    mid (i + 5)
  else none

/-- `_extract_dates`: the matches of the three date patterns, in pattern
order, deduplicated. -/
def extract_dates (t : Str) : List Str :=
  pyDedup
    ((scanIter t.length (d1At t) id 0).map (fun x => pySlice t x.1 x.2) ++
     (scanIter t.length (d2At t) id 0).map (fun x => pySlice t x.1 x.2) ++
     (scanIter t.length (d3At t) id 0).map (fun x => pySlice t x.1 x.2))

/-- The class `[\d,]`. -/
def digitComma (c : Char) : Bool := pyDigit c || c == ','

/-- Length consumed by the optional cents group `(?:\.\d{2})?` at `j`
(greedy: taken whenever a period and two digits are available). -/
def centsOpt (t : Str) (j : Nat) : Nat :=
  if charAt t j == some '.' && 2 ≤ runLen pyDigit t (j + 1) then 3 else 0

/-- Tail `\s*[\d,]+(?:\.\d{2})?` of the currency-word branch; `\s*` is
forced maximal (a shorter run leaves a whitespace character to `[\d,]`). -/
def curTail (t : Str) (j : Nat) : Option Nat :=
  let w := runLen pySpace t j
  let p := j + w
  let r := runLen digitComma t p
  if r != 0 then some (p + r + centsOpt t (p + r)) else none

/-- Branch `\b(?:USD|dollars?|euros?|cents?|pounds?)\s*[\d,]+(?:\.\d{2})?`
(IGNORECASE) at `i`: the word alternatives are tried in order and are
mutually exclusive on their first letter; each optional plural `s?` is
greedy. -/
def curWordAt (t : Str) (i : Nat) : Option Nat :=
  if !boundary t i then none
  else
    let wordTry : Str → Option Nat := fun base =>
      if ciPre base (t.drop i) then
        let j := i + base.length
        match (if ciPre (str "s") (t.drop j) then curTail t (j + 1) else none) with
        | some e => some e
        | none => curTail t j
      else none
    match (if ciPre (str "USD") (t.drop i) then curTail t (i + 3) else none) with
    | some e => some e
    | none =>
      match wordTry (str "dollar") with
      | some e => some e
      | none =>
        match wordTry (str "euro") with
        | some e => some e
        | none =>
          match wordTry (str "cent") with
          | some e => some e
          | none => wordTry (str "pound")

/-- Anchored match of the currency pattern
`\$[\d,]+(?:\.\d{2})?|\b(?:USD|dollars?|euros?|cents?|pounds?)\s*[\d,]+(?:\.\d{2})?`
at `i`: the dollar-sign branch is tried first. -/
def curAt (t : Str) (i : Nat) : Option Nat :=
  match (if charAt t i == some '$' then
      (let r := runLen digitComma t (i + 1)
       if r != 0 then some (i + 1 + r + centsOpt t (i + 1 + r)) else none)
    else none) with
  | some e => some e
  | none => curWordAt t i

/-- Anchored match of the percentage pattern `\b\d+(?:\.\d{1,2})?\s*%` at
`i`: `\d+` is forced maximal (a digit can satisfy none of the followers);
the optional decimal part is greedy with `\d{1,2}` trying two digits then
one; `\s*` is forced maximal (`%` is not whitespace). -/
def pctAt (t : Str) (i : Nat) : Option Nat :=
  if !boundary t i then none
  else
    let r := runLen pyDigit t i
    if r == 0 then none
    else
      let j := i + r
      let finish : Nat → Option Nat := fun p =>
        let w := runLen pySpace t p
        if charAt t (p + w) == some '%' then some (p + w + 1) else none
      match (if charAt t j == some '.' && 2 ≤ runLen pyDigit t (j + 1) then finish (j + 3)
             else none) with
      | some e => some e
      | none =>
        match (if charAt t j == some '.' && 1 ≤ runLen pyDigit t (j + 1) then finish (j + 2)
               else none) with
        | some e => some e
        | none => finish j

/-- `_extract_amounts`: currency matches tagged `Currency` followed by
percentage matches tagged `Percentage`; the list is not deduplicated. -/
def extract_amounts (t : Str) : List (Str × Str) :=
  (scanIter t.length (curAt t) id 0).map (fun x => (pySlice t x.1 x.2, str "Currency")) ++
  (scanIter t.length (pctAt t) id 0).map (fun x => (pySlice t x.1 x.2, str "Percentage"))

/-- The fixed list of the 50 US state names. -/
def usStates : List Str :=
  [str "Alabama", str "Alaska", str "Arizona", str "Arkansas", str "California",
   str "Colorado", str "Connecticut", str "Delaware", str "Florida", str "Georgia",
   str "Hawaii", str "Idaho", str "Illinois", str "Indiana", str "Iowa",
   str "Kansas", str "Kentucky", str "Louisiana", str "Maine", str "Maryland",
   str "Massachusetts", str "Michigan", str "Minnesota", str "Mississippi",
   str "Missouri", str "Montana", str "Nebraska", str "Nevada",
   str "New Hampshire", str "New Jersey", str "New Mexico", str "New York",
   str "North Carolina", str "North Dakota", str "Ohio", str "Oklahoma",
   str "Oregon", str "Pennsylvania", str "Rhode Island", str "South Carolina",
   str "South Dakota", str "Tennessee", str "Texas", str "Utah", str "Vermont",
   str "Virginia", str "Washington", str "West Virginia", str "Wisconsin",
   str "Wyoming"]

/-- The fixed list of country names. -/
def countryNames : List Str :=
  [str "United States", str "United Kingdom", str "Canada", str "Australia",
   str "India"]

/-- `re.search(rf'\b{name}\b', text, IGNORECASE)`: the name occurs somewhere
with word boundaries on both sides. -/
def wordBoundedFound (t : Str) (name : Str) : Bool :=
  (List.range (t.length + 1)).any (fun i =>
    boundary t i && ciPre name (t.drop i) && boundary t (i + name.length))

/-- `_extract_jurisdictions`: states found, then countries found,
deduplicated. -/
def extract_jurisdictions (t : Str) : List Str :=
  pyDedup (usStates.filter (wordBoundedFound t) ++ countryNames.filter (wordBoundedFound t))

/-- The local-part class `[A-Za-z0-9._%+-]` of the email pattern. -/
def localChar (c : Char) : Bool :=
  asciiAlpha c || pyDigit c || c == '.' || c == '_' || c == '%' || c == '+' || c == '-'

/-- The domain class `[A-Za-z0-9.-]` of the email pattern. -/
def domChar (c : Char) : Bool := asciiAlpha c || pyDigit c || c == '.' || c == '-'

/-- The final class `[A-Z|a-z]` of the email pattern (it literally contains
the bar character). -/
def tldChar (c : Char) : Bool := asciiAlpha c || c == '|'

/-- Anchored match of the email pattern
`\b[A-Za-z0-9._%+-]+@[A-Za-z0-9.-]+\.[A-Z|a-z]{2,}\b` at `i`:
after the leading `\b`, the local part is forced to its maximal run (`@` is
outside its class); the greedy domain run backtracks to the rightmost `.`
inside it, and the greedy `{2,}` gives letters back until the trailing `\b`
holds. -/
def emailAt (t : Str) (i : Nat) : Option Nat :=
  if !boundary t i then none
  else
  let r1 := runLen localChar t i
  if r1 == 0 then none
  else if charAt t (i + r1) != some '@' then none
  else
    let d := i + r1 + 1
    let r2 := runLen domChar t d
    if r2 == 0 then none
    else
      firstDownSome (fun k =>
        let p := d + 1 + k
        if charAt t p == some '.' then
          let L := runLen tldChar t (p + 1)
          if L < 2 then none
          else
            firstDownSome (fun j =>
              if boundary t (p + 1 + j) then some (p + 1 + j) else none) 2 (L - 2)
        else none) 0 (r2 - 2)

/-- `_extract_emails`: matches of the email pattern, deduplicated. -/
def extract_emails (t : Str) : List Str :=
  pyDedup ((scanIter t.length (emailAt t) id 0).map (fun x => pySlice t x.1 x.2))

/-- Anchored match of `\b\d{3}-\d{3}-\d{4}\b` at `i`. -/
def ph1At (t : Str) (i : Nat) : Option Nat :=
  if boundary t i && 3 ≤ runLen pyDigit t i && charAt t (i + 3) == some '-' &&
      3 ≤ runLen pyDigit t (i + 4) && charAt t (i + 7) == some '-' &&
      4 ≤ runLen pyDigit t (i + 8) && boundary t (i + 12) then
    some (i + 12)
  else none

/-- Anchored match of `\b\(\d{3}\)\s*\d{3}-\d{4}\b` at `i` (note: `\b` before
`(` requires a word character right before the parenthesis). -/
def ph2At (t : Str) (i : Nat) : Option Nat :=
  if boundary t i && charAt t i == some '(' && 3 ≤ runLen pyDigit t (i + 1) &&
      charAt t (i + 4) == some ')' then
    let w := runLen pySpace t (i + 5)
    let p := i + 5 + w
    if 3 ≤ runLen pyDigit t p && charAt t (p + 3) == some '-' &&
        4 ≤ runLen pyDigit t (p + 4) && boundary t (p + 8) then
      some (p + 8)
    else none
  else none

/-- Anchored match of `\b\d{10}\b` at `i`. -/
def ph3At (t : Str) (i : Nat) : Option Nat :=
  if boundary t i && 10 ≤ runLen pyDigit t i && boundary t (i + 10) then some (i + 10)
  else none

/-- `_extract_phone_numbers`: matches of the three phone patterns, in
pattern order, deduplicated. -/
def extract_phone_numbers (t : Str) : List Str :=
  pyDedup
    ((scanIter t.length (ph1At t) id 0).map (fun x => pySlice t x.1 x.2) ++
     (scanIter t.length (ph2At t) id 0).map (fun x => pySlice t x.1 x.2) ++
     (scanIter t.length (ph3At t) id 0).map (fun x => pySlice t x.1 x.2))

/-- Anchored match of `https?://[^\s]+` at `i` (no IGNORECASE flag; the
optional `s` is greedy). -/
def urlAt (t : Str) (i : Nat) : Option Nat :=
  if (str "https://").isPrefixOf (t.drop i) then
    let r := runLen (fun c => !pySpace c) t (i + 8)
    if r != 0 then some (i + 8 + r) else none
  else if (str "http://").isPrefixOf (t.drop i) then
    let r := runLen (fun c => !pySpace c) t (i + 7)
    if r != 0 then some (i + 7 + r) else none
  else none

/-- `_extract_urls`: matches of the URL pattern, deduplicated. -/
def extract_urls (t : Str) : List Str :=
  pyDedup ((scanIter t.length (urlAt t) id 0).map (fun x => pySlice t x.1 x.2))

/-- The group class `[A-Za-z\s&,]` of the parties pattern (IGNORECASE makes
`[A-Z]` accept both cases). -/
def partyChar (c : Char) : Bool := asciiAlpha c || pySpace c || c == '&' || c == ','

/-- The branch `by\s+and\s+between` (IGNORECASE) at `i`; the `\s+` runs are
forced maximal (a letter follows each). -/
def byAndBetweenAt (t : Str) (i : Nat) : Option Nat :=
  if ciPre (str "by") (t.drop i) then
    let w1 := runLen pySpace t (i + 2)
    if w1 != 0 && ciPre (str "and") (t.drop (i + 2 + w1)) then
      let j := i + 2 + w1 + 3
      let w2 := runLen pySpace t j
      if w2 != 0 && ciPre (str "between") (t.drop (j + w2)) then some (j + w2 + 7)
      else none
    else none
  else none

/-- Keyword alternation of the parties pattern, in declaration order: ends
of the alternatives that match at `i` (IGNORECASE). -/
def partyKwBranches (t : Str) (i : Nat) : List Nat :=
  ([str "between", str "party", str "parties", str "Inc.", str "LLC", str "Corp",
    str "Corporation", str "Company"].filterMap (fun b =>
      if ciPre b (t.drop i) then some (i + b.length) else none)) ++
  (match byAndBetweenAt t i with
   | some e => [e]
   | none => [])

/-- First defined value among `f j, f j+1, …, f j+k-1` (upward search with a
payload, how a lazy repetition extends with its continuation). -/
def firstFromSome {α : Type} (f : Nat → Option α) (j : Nat) : Nat → Option (Nat × α)
  | 0 => none
  | k + 1 =>
    match f j with
    | some a => some (j, a)
    | none => firstFromSome f (j + 1) k

/-- The consuming terminator alternation `(?:,|\.|\s+and\s+)` of the parties
pattern at `q`, tried in order; returns the end of the consumed
terminator. -/
def partyTermAt (t : Str) (q : Nat) : Option Nat :=
  if charAt t q == some ',' then some (q + 1)
  else if charAt t q == some '.' then some (q + 1)
  else
    let w1 := runLen pySpace t q
    if w1 != 0 && ciPre (str "and") (t.drop (q + w1)) then
      let w2 := runLen pySpace t (q + w1 + 3)
      if w2 != 0 then some (q + w1 + 3 + w2) else none
    else none

/-- Rest of the parties pattern after a keyword alternative ending at `j`:
`\s+([A-Z][A-Za-z\s&,]+?)(?:,|\.|\s+and\s+)` with IGNORECASE.  `\s+` is
forced maximal (the group starts with a letter); the group consumes one
letter plus at least one class character, then stops at the first position
where a terminator alternative matches.  Returns (group start, group end,
match end). -/
def partyRest (t : Str) (j : Nat) : Option (Nat × Nat × Nat) :=
  let w := runLen pySpace t j
  if w == 0 then none
  else
    let g0 := j + w
    match charAt t g0 with
    | some c =>
      if asciiAlpha c then
        let R := runLen partyChar t (g0 + 1)
        match firstFromSome (fun q => partyTermAt t q) (g0 + 2) R with
        | some (q, e) => some (g0, q, e)
        | none => none
      else none
    | none => none

/-- Anchored match of the parties pattern at `i`: try each keyword
alternative in order with the full continuation. -/
def partyAt (t : Str) (i : Nat) : Option (Nat × Nat × Nat) :=
  (partyKwBranches t i).findSome? (fun j => partyRest t j)

/-- `_extract_parties`: group 1 of each match, stripped, with trailing
commas and periods removed, kept when longer than 2 characters;
deduplicated. -/
def extract_parties (t : Str) : List Str :=
  pyDedup ((scanIter t.length (partyAt t) (fun m => m.2.2) 0).filterMap (fun x =>
    let g := pyRstrip [',', '.'] (pyStrip (pySlice t x.2.1 x.2.2.1))
    if 2 < g.length then some g else none))

/-- `extract_entities`: the full entity bundle. -/
def extract_entities (t : Str) : EntityBundle :=
  { parties := extract_parties t
    dates := extract_dates t
    amounts := extract_amounts t
    jurisdictions := extract_jurisdictions t
    emails := extract_emails t
    phone_numbers := extract_phone_numbers t
    urls := extract_urls t }

/-! ## Specification-side definitions

These definitions restate, in the spec's words, the behaviour the claims
describe; the claim theorems relate them to the implementation functions
above. -/

/-- The list of positions `p, p+1, …, p+k-1`. -/
def posRange (p : Nat) : Nat → List Nat
  | 0 => []
  | k + 1 => p :: posRange (p + 1) k

/-- Specification of the clause-header set: every position of the text at
which the anchored clause pattern matches, in ascending order, with its
match data — the scan recognizes a clause at exactly these positions. -/
def clauseHeaders (t : Str) : List (Nat × Nat × Nat × Nat) :=
  (posRange 0 (t.length + 1)).filterMap (fun i =>
    (clauseMatchAt t i).map (fun m => (i, m.1, m.2.1, m.2.2)))

/-- Specification of the per-category contribution of `detect_risks`: the
first keyword of the category present in the text (declaration order,
first-hit-wins) determines the evidence sentences; one finding per
sentence, identical findings collapsed. -/
def riskBlockSpec (t : Str) (rp : RiskPattern) : List RiskFinding :=
  match rp.keywords.find? (fun kw => hasSub kw (lowerS t)) with
  | none => []
  | some kw =>
    (find_sentence_with_keyword t kw).foldl (fun acc s =>
      if acc.contains (mkRisk rp s) then acc else acc ++ [mkRisk rp s]) []

/-- First period position at or after `j`. -/
def firstPeriod (t : Str) (j : Nat) : Option Nat :=
  firstFrom (dotAt t) j (t.length - j)

/-- Specification of a definition-pattern match at `i`, stated directly:
a double-quoted term of at least one character, optional whitespace, a
trigger word (case-insensitive, first match in declaration order), optional
whitespace, and a definition running up to and including the next period —
except that when the character right after the whitespace is itself a
period, the definition instead starts at the last whitespace character
(the greedy `\s*` gives one character back).  Both captures are stripped. -/
def defSpecAt (t : Str) (i : Nat) : Option (Str × Str × Nat) :=
  match defHead t i with
  | some (term, u2) =>
    let pos := u2 + runLen pySpace t u2
    match charAt t pos with
    | some c =>
      if c != '.' then
        match firstPeriod t (pos + 1) with
        | some fp => some (term, pyStrip (pySlice t pos (fp + 1)), fp + 1)
        | none => none
      else if runLen pySpace t u2 != 0 then
        some (term, pyStrip (pySlice t (pos - 1) (pos + 1)), pos + 1)
      else none
    | none => none
  | none => none

/-- The non-overlapping left-to-right match list of the definition pattern,
in the specification form. -/
def defMatchesSpec (t : Str) : List (Nat × Str × Str × Nat) :=
  scanIter t.length (defSpecAt t) (fun m => m.2.2) 0

/-- Mapping lookup in an association list (first entry wins, as in a
dictionary with unique keys). -/
def lookupStr (m : List (Str × Str)) (k : Str) : Option Str :=
  (m.find? (fun kv => kv.1 == k)).map (fun kv => kv.2)

/-! ## General scanning lemmas -/

theorem takeWhile_get {p : Char → Bool} :
    ∀ (l : List Char) (k : Nat), k < (l.takeWhile p).length →
      ∃ c, l.get? k = some c ∧ p c = true := by
  intro l
  induction l with
  | nil => intro k hk; simp [List.takeWhile] at hk
  | cons a l ih =>
    intro k hk
    rw [List.takeWhile_cons] at hk
    by_cases hpa : p a
    · simp [hpa] at hk
      match k with
      | 0 => exact ⟨a, rfl, hpa⟩
      | k + 1 =>
        have := ih k (by omega)
        simpa using this
    · simp [hpa] at hk

theorem takeWhile_end {p : Char → Bool} :
    ∀ (l : List Char) (c : Char), l.get? ((l.takeWhile p).length) = some c →
      p c = false := by
  intro l
  induction l with
  | nil => intro c hc; simp at hc
  | cons a l ih =>
    intro c hc
    rw [List.takeWhile_cons] at hc
    by_cases hpa : p a
    · rw [if_pos hpa] at hc
      have hlen : (a :: List.takeWhile p l).length = (List.takeWhile p l).length + 1 := rfl
      rw [hlen, List.get?_cons_succ] at hc
      exact ih c hc
    · rw [if_neg hpa] at hc
      have hc0 : (a :: l).get? 0 = some c := hc
      rw [List.get?_cons_zero] at hc0
      cases hc0
      simpa using hpa

theorem takeWhile_prefix_all {p : Char → Bool} :
    ∀ (l : List Char) (k : Nat), k ≤ (l.takeWhile p).length →
      (l.take k).all p = true := by
  intro l
  induction l with
  | nil => intro k _; simp
  | cons a l ih =>
    intro k hk
    rw [List.takeWhile_cons] at hk
    by_cases hpa : p a
    · simp [hpa] at hk
      match k with
      | 0 => simp
      | k + 1 =>
        rw [List.take_succ_cons, List.all_cons, hpa, Bool.true_and]
        exact ih k (by omega)
    · simp [hpa] at hk
      subst hk
      simp

theorem runLen_get {p : Char → Bool} {t : Str} {i k : Nat} (h : k < runLen p t i) :
    ∃ c, charAt t (i + k) = some c ∧ p c = true := by
  obtain ⟨c, hc, hp⟩ := takeWhile_get (t.drop i) k h
  exact ⟨c, by rw [charAt, ← List.get?_drop]; exact hc, hp⟩

theorem runLen_end {p : Char → Bool} {t : Str} {i : Nat} {c : Char}
    (h : charAt t (i + runLen p t i) = some c) : p c = false := by
  apply takeWhile_end (t.drop i)
  rw [List.get?_drop]
  exact h

theorem runLen_le {p : Char → Bool} (t : Str) (i : Nat) : runLen p t i ≤ t.length - i := by
  have h1 : (List.takeWhile p (t.drop i)).length ≤ (t.drop i).length :=
    List.Sublist.length_le (List.takeWhile_sublist p)
  simpa [runLen] using h1

theorem runLen_slice_all {p : Char → Bool} (t : Str) (i : Nat) {k : Nat}
    (h : k ≤ runLen p t i) : (pySlice t i (i + k)).all p = true := by
  have : pySlice t i (i + k) = (t.drop i).take k := by
    simp [pySlice]
  rw [this]
  exact takeWhile_prefix_all (t.drop i) k h

theorem charAt_lt {t : Str} {i : Nat} {c : Char} (h : charAt t i = some c) :
    i < t.length := by
  rw [charAt] at h
  exact (List.get?_eq_some.mp h).1

theorem charAt_of_lt {t : Str} {i : Nat} (h : i < t.length) :
    ∃ c, charAt t i = some c := by
  rw [charAt]
  cases hc : t.get? i with
  | none => exact absurd (List.get?_eq_none.mp hc) (by omega)
  | some c => exact ⟨c, rfl⟩

theorem firstFrom_eq_some {p : Nat → Bool} :
    ∀ (k j r : Nat), firstFrom p j k = some r →
      j ≤ r ∧ r < j + k ∧ p r = true ∧ ∀ q, j ≤ q → q < r → p q = false := by
  intro k
  induction k with
  | zero => intro j r h; simp [firstFrom] at h
  | succ k ih =>
    intro j r h
    rw [firstFrom] at h
    by_cases hpj : p j
    · simp [hpj] at h
      subst h
      exact ⟨le_refl _, by omega, hpj, fun q hq1 hq2 => by omega⟩
    · simp [hpj] at h
      obtain ⟨h1, h2, h3, h4⟩ := ih (j + 1) r h
      refine ⟨by omega, by omega, h3, fun q hq1 hq2 => ?_⟩
      rcases Nat.eq_or_lt_of_le hq1 with rfl | hlt
      · simpa using hpj
      · exact h4 q (by omega) hq2

theorem firstFrom_eq_none {p : Nat → Bool} :
    ∀ (k j : Nat), firstFrom p j k = none →
      ∀ q, j ≤ q → q < j + k → p q = false := by
  intro k
  induction k with
  | zero => intro j _ q hq1 hq2; omega
  | succ k ih =>
    intro j h q hq1 hq2
    rw [firstFrom] at h
    by_cases hpj : p j
    · simp [hpj] at h
    · simp [hpj] at h
      rcases Nat.eq_or_lt_of_le hq1 with rfl | hlt
      · simpa using hpj
      · exact ih (j + 1) h q (by omega) (by omega)

theorem firstFrom_isSome {p : Nat → Bool} :
    ∀ (k j q : Nat), j ≤ q → q < j + k → p q = true →
      (firstFrom p j k).isSome = true := by
  intro k
  induction k with
  | zero => intro j q h1 h2; omega
  | succ k ih =>
    intro j q h1 h2 h3
    rw [firstFrom]
    by_cases hpj : p j
    · simp [hpj]
    · simp [hpj]
      rcases Nat.eq_or_lt_of_le h1 with rfl | hlt
      · simp [h3] at hpj
      · exact ih (j + 1) q (by omega) (by omega) h3

theorem firstDown_eq_some {p : Nat → Bool} :
    ∀ (k lo r : Nat), firstDown p lo k = some r →
      lo ≤ r ∧ r ≤ lo + k ∧ p r = true ∧ ∀ q, r < q → q ≤ lo + k → p q = false := by
  intro k
  induction k with
  | zero =>
    intro lo r h
    rw [firstDown] at h
    by_cases hp : p lo
    · simp [hp] at h
      subst h
      exact ⟨le_refl _, by omega, hp, fun q h1 h2 => by omega⟩
    · simp [hp] at h
  | succ k ih =>
    intro lo r h
    rw [firstDown] at h
    by_cases hp : p (lo + k + 1)
    · simp [hp] at h
      subst h
      exact ⟨by omega, by omega, hp, fun q h1 h2 => by omega⟩
    · simp [hp] at h
      obtain ⟨h1, h2, h3, h4⟩ := ih lo r h
      refine ⟨h1, by omega, h3, fun q hq1 hq2 => ?_⟩
      rcases Nat.eq_or_lt_of_le hq2 with rfl | hlt
      · simpa using hp
      · exact h4 q hq1 (by omega)

theorem firstDown_eq_none {p : Nat → Bool} :
    ∀ (k lo : Nat), firstDown p lo k = none →
      ∀ q, lo ≤ q → q ≤ lo + k → p q = false := by
  intro k
  induction k with
  | zero =>
    intro lo h q h1 h2
    rw [firstDown] at h
    by_cases hp : p lo
    · simp [hp] at h
    · have : q = lo := by omega
      subst this
      simpa using hp
  | succ k ih =>
    intro lo h q h1 h2
    rw [firstDown] at h
    by_cases hp : p (lo + k + 1)
    · simp [hp] at h
    · simp [hp] at h
      rcases Nat.eq_or_lt_of_le h2 with rfl | hlt
      · simpa using hp
      · exact ih lo h q h1 (by omega)

theorem mem_posRange : ∀ {k p q : Nat}, q ∈ posRange p k ↔ p ≤ q ∧ q < p + k := by
  intro k
  induction k with
  | zero =>
    intro p q
    simp only [posRange, List.not_mem_nil, false_iff]
    omega
  | succ k ih =>
    intro p q
    rw [posRange]
    simp only [List.mem_cons, ih]
    omega

theorem posRange_pairwise : ∀ (k p : Nat), List.Pairwise (· < ·) (posRange p k) := by
  intro k
  induction k with
  | zero => intro p; simp [posRange]
  | succ k ih =>
    intro p
    rw [posRange]
    rw [List.pairwise_cons]
    exact ⟨fun q hq => (mem_posRange.mp hq).1, ih (p + 1)⟩

theorem posRange_filterMap_none {β : Type} (F : Nat → Option β) :
    ∀ (d j k : Nat), (∀ q, j ≤ q → q < j + d → F q = none) → d ≤ k →
      (posRange j k).filterMap F = (posRange (j + d) (k - d)).filterMap F := by
  intro d
  induction d with
  | zero => intro j k _ _; simp
  | succ d ih =>
    intro j k hnone hd
    match k with
    | k + 1 =>
      rw [posRange, List.filterMap_cons, hnone j (le_refl _) (by omega)]
      have hrec := ih (j + 1) k (fun q h1 h2 => hnone q (by omega) (by omega)) (by omega)
      have e1 : j + 1 + d = j + (d + 1) := by omega
      have e2 : k - d = k + 1 - (d + 1) := by omega
      rw [hrec, e1, e2]

theorem scanIterGo_eq_filterMap {α : Type} (n : Nat) (m : Nat → Option α) (endO : α → Nat)
    (hend : ∀ p a, m p = some a → p < endO a ∧ endO a ≤ n + 1)
    (hskip : ∀ p a q, m p = some a → p < q → q < endO a → m q = none) :
    ∀ (fuel p : Nat), n + 1 - p ≤ fuel →
      scanIterGo n m endO fuel p =
        (posRange p (n + 1 - p)).filterMap (fun q => (m q).map (fun a => (q, a))) := by
  intro fuel
  induction fuel with
  | zero =>
    intro p hp
    have : n + 1 - p = 0 := by omega
    rw [this, scanIterGo, posRange]
    simp
  | succ fuel ih =>
    intro p hp
    rw [scanIterGo]
    by_cases hpn : p ≤ n
    · rw [if_pos hpn]
      have hrange : n + 1 - p = (n - p) + 1 := by omega
      cases hmp : m p with
      | none =>
        rw [hrange, posRange, List.filterMap_cons, hmp]
        simp only [Option.map_none']
        have hrec := ih (p + 1) (by omega)
        have e1 : n + 1 - (p + 1) = n - p := by omega
        rw [hrec, e1]
      | some a =>
        obtain ⟨hlt, hle⟩ := hend p a hmp
        have hmax : max (p + 1) (endO a) = endO a := by omega
        rw [hrange, posRange, List.filterMap_cons, hmp]
        simp only [Option.map_some']
        rw [hmax]
        have hrec := ih (endO a) (by omega)
        rw [hrec]
        have hdrop := posRange_filterMap_none (fun q => (m q).map (fun a => (q, a)))
          (endO a - (p + 1)) (p + 1) (n - p)
          (fun q h1 h2 => by
            have hq := hskip p a q hmp (by omega) (by omega)
            simp [hq])
          (by omega)
        have h1 : p + 1 + (endO a - (p + 1)) = endO a := by omega
        have h2 : n - p - (endO a - (p + 1)) = n + 1 - endO a := by omega
        rw [h1, h2] at hdrop
        rw [hdrop]
    · rw [if_neg hpn]
      have : n + 1 - p = 0 := by omega
      rw [this, posRange]
      simp

theorem scanIter_eq_filterMap {α : Type} (n : Nat) (m : Nat → Option α) (endO : α → Nat)
    (hend : ∀ p a, m p = some a → p < endO a ∧ endO a ≤ n + 1)
    (hskip : ∀ p a q, m p = some a → p < q → q < endO a → m q = none) :
    scanIter n m endO 0 =
      (posRange 0 (n + 1)).filterMap (fun q => (m q).map (fun a => (q, a))) := by
  have := scanIterGo_eq_filterMap n m endO hend hskip (n + 1 - 0) 0 (le_refl _)
  simpa [scanIter] using this

/-! ## Character-class facts -/

theorem pyDigit_ne_newline {c : Char} (h : pyDigit c = true) : c ≠ '\n' := by
  intro hc
  subst hc
  exact absurd h (by decide)

theorem pySpace_not_digit {c : Char} (h : pySpace c = true) : pyDigit c = false := by
  simp [pySpace] at h
  simp [pyDigit]
  omega

theorem upperAZ_not_digit {c : Char} (h : upperAZ c = true) : pyDigit c = false := by
  simp [upperAZ] at h
  simp [pyDigit]
  omega

theorem upperAZ_ne_newline {c : Char} (h : upperAZ c = true) : c ≠ '\n' := by
  intro hc
  subst hc
  exact absurd h (by decide)

theorem runLen_zero_of_head {p : Char → Bool} {t : Str} {q : Nat}
    (h : ∀ c, charAt t q = some c → p c = false) : runLen p t q = 0 := by
  by_contra hne
  obtain ⟨c, hc, hp⟩ := runLen_get (p := p) (t := t) (i := q) (k := 0) (by omega)
  rw [Nat.add_zero] at hc
  rw [h c hc] at hp
  exact Bool.false_ne_true hp

/-! ## Clause-pattern lemmas -/

theorem clauseMatchAt_some {t : Str} {i d hs he : Nat}
    (h : clauseMatchAt t i = some (d, hs, he)) :
    atLineStart t i = true ∧
    d = runLen pyDigit t i ∧ d ≠ 0 ∧
    charAt t (i + d) = some '.' ∧
    runLen pySpace t (i + d + 1) ≠ 0 ∧
    hs = i + d + 1 + runLen pySpace t (i + d + 1) ∧
    (∃ c, charAt t hs = some c ∧ upperAZ c = true) ∧
    hs + 1 ≤ he ∧ he ≤ hs + 1 + runLen headChar t (hs + 1) ∧
    clauseLook t he = true ∧
    (∀ q, hs + 1 ≤ q → q < he → clauseLook t q = false) := by
  rw [clauseMatchAt] at h
  by_cases h1 : atLineStart t i
  case neg => simp [h1] at h
  rw [if_pos h1] at h
  simp only at h
  by_cases h2 : runLen pyDigit t i != 0
  case neg => simp [h2] at h
  rw [if_pos h2] at h
  by_cases h3 : charAt t (i + runLen pyDigit t i) == some '.'
  case neg => simp [h3] at h
  rw [if_pos h3] at h
  by_cases h4 : runLen pySpace t (i + runLen pyDigit t i + 1) != 0
  case neg => simp [h4] at h
  rw [if_pos h4] at h
  cases h5 : charAt t (i + runLen pyDigit t i + 1 +
      runLen pySpace t (i + runLen pyDigit t i + 1)) with
  | none => rw [h5] at h; simp at h
  | some c =>
    rw [h5] at h
    simp only at h
    by_cases h6 : upperAZ c
    case neg => simp [h6] at h
    rw [if_pos h6] at h
    cases h7 : firstFrom (fun j => clauseLook t j)
        (i + runLen pyDigit t i + 1 + runLen pySpace t (i + runLen pyDigit t i + 1) + 1)
        (runLen headChar t
          (i + runLen pyDigit t i + 1 + runLen pySpace t (i + runLen pyDigit t i + 1) + 1) + 1) with
    | none => rw [h7] at h; simp at h
    | some he' =>
      rw [h7] at h
      simp only [Option.some.injEq, Prod.mk.injEq] at h
      obtain ⟨hd, hhs, hhe⟩ := h
      subst hd
      subst hhs
      subst hhe
      obtain ⟨f1, f2, f3, f4⟩ := firstFrom_eq_some _ _ _ h7
      refine ⟨h1, rfl, by simpa using h2, by simpa using h3, by simpa using h4, rfl,
        ⟨c, h5, h6⟩, f1, by omega, f3, ?_⟩
      intro q hq1 hq2
      exact f4 q hq1 hq2

theorem clauseMatchAt_none_lineStart {t : Str} {i : Nat} (h : atLineStart t i = false) :
    clauseMatchAt t i = none := by
  rw [clauseMatchAt]
  simp [h]

theorem clauseMatchAt_none_digit {t : Str} {i : Nat} (h : runLen pyDigit t i = 0) :
    clauseMatchAt t i = none := by
  rw [clauseMatchAt]
  by_cases h1 : atLineStart t i <;> simp [h1, h]

theorem clause_no_header_inside {t : Str} {i d hs he : Nat}
    (h : clauseMatchAt t i = some (d, hs, he)) :
    ∀ q, i < q → q < he → clauseMatchAt t q = none := by
  obtain ⟨h1, hd, hd0, hdot, hw0, hhs, ⟨c0, hc0, hup⟩, hhe1, hhe2, hlook, hmin⟩ :=
    clauseMatchAt_some h
  intro q hq1 hq2
  by_cases hls : atLineStart t q
  case neg => exact clauseMatchAt_none_lineStart (by simpa using hls)
  have hq0 : q ≠ 0 := by omega
  have hnl : charAt t (q - 1) = some '\n' := by
    simpa [atLineStart, hq0] using hls
  by_cases hA : q < i + d + 1
  · have hk : q - 1 - i < runLen pyDigit t i := by omega
    obtain ⟨c, hc, hdig⟩ := runLen_get hk
    have hpos : i + (q - 1 - i) = q - 1 := by omega
    rw [hpos] at hc
    rw [hc] at hnl
    exact absurd (Option.some.inj hnl) (pyDigit_ne_newline hdig)
  by_cases hB : q = i + d + 1
  · subst hB
    have hidx : i + d + 1 - 1 = i + d := by omega
    rw [hidx, hdot] at hnl
    simp at hnl
  by_cases hC : q < hs
  · have hk : q - (i + d + 1) < runLen pySpace t (i + d + 1) := by omega
    obtain ⟨c, hc, hsp⟩ := runLen_get hk
    have hpos : i + d + 1 + (q - (i + d + 1)) = q := by omega
    rw [hpos] at hc
    apply clauseMatchAt_none_digit
    apply runLen_zero_of_head
    intro c' hc'
    rw [hc] at hc'
    exact (Option.some.inj hc') ▸ pySpace_not_digit hsp
  by_cases hD : q = hs
  · subst hD
    apply clauseMatchAt_none_digit
    apply runLen_zero_of_head
    intro c' hc'
    rw [hc0] at hc'
    exact (Option.some.inj hc') ▸ upperAZ_not_digit hup
  by_cases hE : q = hs + 1
  · subst hE
    have hidx : hs + 1 - 1 = hs := by omega
    rw [hidx, hc0] at hnl
    exact absurd (Option.some.inj hnl) (upperAZ_ne_newline hup)
  · have hlk := hmin (q - 1) (by omega) (by omega)
    rw [clauseLook] at hlk
    simp [hnl] at hlk

theorem runLen_succ_of_head {p : Char → Bool} {t : Str} {i : Nat} {c : Char}
    (hc : charAt t i = some c) (hp : p c = true) :
    runLen p t i = runLen p t (i + 1) + 1 := by
  have hlt : i < t.length := charAt_lt hc
  have hdrop : t.drop i = c :: t.drop (i + 1) := by
    have := List.drop_eq_getElem_cons hlt
    rw [this]
    congr 1
    have : t.get? i = some t[i] := by
      simp [List.get?_eq_getElem?, List.getElem?_eq_getElem hlt]
    rw [charAt] at hc
    rw [this] at hc
    exact Option.some.inj hc
  rw [runLen, runLen, hdrop, List.takeWhile_cons, if_pos hp]
  simp

theorem clauseMatchAt_end_bounds {t : Str} {i d hs he : Nat}
    (h : clauseMatchAt t i = some (d, hs, he)) : i < he ∧ he ≤ t.length := by
  obtain ⟨h1, hd, hd0, hdot, hw0, hhs, ⟨c0, hc0, hup⟩, hhe1, hhe2, hlook, hmin⟩ :=
    clauseMatchAt_some h
  have hhslt : hs < t.length := charAt_lt hc0
  have hrun := runLen_le (p := headChar) t (hs + 1)
  constructor
  · omega
  · omega

theorem extract_clauses_scan_eq (t : Str) :
    (scanIter t.length (clauseMatchAt t) (fun m => m.2.2) 0).map
      (fun x => (x.1, x.2.1, x.2.2.1, x.2.2.2)) = clauseHeaders t := by
  rw [scanIter_eq_filterMap t.length (clauseMatchAt t) (fun m => m.2.2)
    (fun p a ha => by
      obtain ⟨d, hs, he⟩ := a
      have := clauseMatchAt_end_bounds ha
      refine ⟨this.1, ?_⟩
      show he ≤ t.length + 1
      omega)
    (fun p a q ha h1 h2 => by
      obtain ⟨d, hs, he⟩ := a
      exact clause_no_header_inside ha q h1 h2)]
  rw [clauseHeaders, List.map_filterMap]
  apply List.filterMap_congr
  intro i _
  cases clauseMatchAt t i with
  | none => rfl
  | some m => rfl

theorem buildClauses_full_content (t : Str) : ∀ (l : List (Nat × Nat × Nat × Nat)),
    (buildClauses t l).map Clause.full_content =
      (l.zip ((l.drop 1).map (fun x => x.1) ++ [t.length])).map
        (fun y => pyStrip (pySlice t y.1.2.2.2 y.2)) := by
  intro l
  induction l with
  | nil => simp [buildClauses]
  | cons x l' ih =>
    cases l' with
    | nil => simp [buildClauses]
    | cons y l'' =>
      have hstep : (buildClauses t (x :: y :: l'')).map Clause.full_content =
          pyStrip (pySlice t x.2.2.2 y.1) ::
            (buildClauses t (y :: l'')).map Clause.full_content := rfl
      rw [hstep, ih]
      simp [List.zip_cons_cons]

theorem mem_clauseHeaders {t : Str} {x : Nat × Nat × Nat × Nat} (hx : x ∈ clauseHeaders t) :
    clauseMatchAt t x.1 = some (x.2.1, x.2.2.1, x.2.2.2) := by
  rw [clauseHeaders] at hx
  obtain ⟨i, _, hF⟩ := List.mem_filterMap.mp hx
  cases hmi : clauseMatchAt t i with
  | none => rw [hmi] at hF; simp at hF
  | some m =>
    rw [hmi] at hF
    simp only [Option.map_some', Option.some.injEq] at hF
    cases hF
    exact hmi

theorem clauseHeaders_pairwise (t : Str) :
    List.Pairwise (fun a b => a.1 < b.1 ∧ a.2.2.2 ≤ b.1) (clauseHeaders t) := by
  rw [clauseHeaders]
  apply List.Pairwise.filterMap _ _ (posRange_pairwise _ _)
  intro i i' hlt b hb b' hb'
  cases hmi : clauseMatchAt t i with
  | none => rw [hmi] at hb; simp at hb
  | some m =>
    rw [hmi] at hb
    simp only [Option.map_some', Option.mem_def, Option.some.injEq] at hb
    cases hmi' : clauseMatchAt t i' with
    | none => rw [hmi'] at hb'; simp at hb'
    | some m' =>
      rw [hmi'] at hb'
      simp only [Option.map_some', Option.mem_def, Option.some.injEq] at hb'
      subst hb
      subst hb'
      refine ⟨hlt, ?_⟩
      show m.2.2 ≤ i'
      by_contra hcon
      have hnone := @clause_no_header_inside t i m.1 m.2.1 m.2.2 hmi i' hlt (by omega)
      rw [hnone] at hmi'
      exact Option.noConfusion hmi'

/-- C3 (theorem for the amended claim): for every input text,
`extract_clauses` recognizes a top-level clause at exactly those positions
collected in `clauseHeaders`: positions at a line start carrying one or
more digits, a period, at least one whitespace character (possibly spanning
line breaks), and a heading that starts with an uppercase letter and
continues through uppercase letters and whitespace, ending minimally at the
first position where the lookahead (end of line, end of text, or a line
start with digits and a period) holds.  Each clause's `full_content` is the
text strictly between the end of that clause's heading and the start of the
next matched header (or end of document for the last clause), with leading
and trailing whitespace stripped, and the clauses are ordered by document
position with non-overlapping spans. -/
theorem C3_clause_segmentation (t : Str) :
    extract_clauses t = buildClauses t (clauseHeaders t) ∧
    List.Pairwise (fun a b => a.1 < b.1 ∧ a.2.2.2 ≤ b.1) (clauseHeaders t) ∧
    (∀ x ∈ clauseHeaders t,
      x.1 < x.2.2.2 ∧ x.2.2.2 ≤ t.length ∧
      atLineStart t x.1 = true ∧
      x.2.1 ≠ 0 ∧ (pySlice t x.1 (x.1 + x.2.1)).all pyDigit = true ∧
      charAt t (x.1 + x.2.1) = some '.' ∧
      x.1 + x.2.1 + 1 < x.2.2.1 ∧
      (pySlice t (x.1 + x.2.1 + 1) x.2.2.1).all pySpace = true ∧
      x.2.2.1 < x.2.2.2 ∧
      (pySlice t x.2.2.1 x.2.2.2).all headChar = true ∧
      (∃ c, charAt t x.2.2.1 = some c ∧ upperAZ c = true) ∧
      clauseLook t x.2.2.2 = true ∧
      (∀ q, x.2.2.1 + 1 ≤ q → q < x.2.2.2 → clauseLook t q = false)) ∧
    (extract_clauses t).map Clause.full_content =
      ((clauseHeaders t).zip
        (((clauseHeaders t).drop 1).map (fun x => x.1) ++ [t.length])).map
        (fun y => pyStrip (pySlice t y.1.2.2.2 y.2)) := by
  have hmain : extract_clauses t = buildClauses t (clauseHeaders t) := by
    rw [extract_clauses, extract_clauses_scan_eq]
  refine ⟨hmain, clauseHeaders_pairwise t, ?_, ?_⟩
  · intro x hx
    obtain ⟨i, d, hs, he⟩ := x
    have hm := mem_clauseHeaders hx
    simp only at hm ⊢
    have hb := clauseMatchAt_end_bounds hm
    obtain ⟨h1, hd, hd0, hdot, hw0, hhs, ⟨c0, hc0, hup⟩, hhe1, hhe2, hlook, hmin⟩ :=
      clauseMatchAt_some hm
    refine ⟨hb.1, hb.2, h1, hd0, ?_, hdot, by omega, ?_, by omega, ?_,
      ⟨c0, hc0, hup⟩, hlook, hmin⟩
    · exact runLen_slice_all t i hd.le
    · have hk : hs - (i + d + 1) ≤ runLen pySpace t (i + d + 1) := by omega
      have hall := runLen_slice_all t (i + d + 1) hk
      have harith : i + d + 1 + (hs - (i + d + 1)) = hs := by omega
      rw [harith] at hall
      exact hall
    · have hch : headChar c0 = true := by simp [headChar, hup]
      have hsucc := runLen_succ_of_head hc0 hch
      have hk : he - hs ≤ runLen headChar t hs := by omega
      have hall := runLen_slice_all t hs hk
      have harith : hs + (he - hs) = he := by omega
      rw [harith] at hall
      exact hall
  · rw [hmain]
    exact buildClauses_full_content t (clauseHeaders t)

/-- C3 counterexample: the claim as stated also admits capitalized (not
all-caps) headings, but on `"1. Termination\nSome text."` — a line starting
with an integer, a period, whitespace and the capitalized heading token
`Termination` — the code recognizes no clause at all. -/
theorem C3_counterexample :
    extract_clauses (str "1. Termination\nSome text.") = [] := by decide

/-- Witness for C3 at a concrete input: on `"1. AB\nx"` the single header
`(0, 1, 3, 5)` is recognized, and the instantiated facts hold. -/
theorem C3_clause_segmentation_witness :
    (0, 1, 3, 5) ∈ clauseHeaders (str "1. AB\nx") ∧
    atLineStart (str "1. AB\nx") 0 = true ∧
    charAt (str "1. AB\nx") (0 + 1) = some '.' ∧
    clauseLook (str "1. AB\nx") 5 = true := by
  have h := (C3_clause_segmentation (str "1. AB\nx")).2.2.1 (0, 1, 3, 5) (by decide)
  exact ⟨by decide, h.2.2.1, h.2.2.2.2.2.1, h.2.2.2.2.2.2.2.2.2.2.2.1⟩

/-! ## Classifier lemmas -/

theorem classifyScores_aux (tl : Str) :
    ∀ (l : List ClassPattern) (acc : List (Str × Nat)),
      l.foldl (fun a cp =>
        let m := cp.keywords.countP (fun kw => hasSub kw tl)
        if cp.min_matches ≤ m then a ++ [(cp.name, m)] else a) acc
      = acc ++ (l.filter (fun cp =>
          cp.min_matches ≤ cp.keywords.countP (fun kw => hasSub kw tl))).map
          (fun cp => (cp.name, cp.keywords.countP (fun kw => hasSub kw tl))) := by
  intro l
  induction l with
  | nil => intro acc; simp
  | cons x l ih =>
    intro acc
    rw [List.foldl_cons]
    simp only
    by_cases hpx : x.min_matches ≤ x.keywords.countP (fun kw => hasSub kw tl)
    · rw [if_pos hpx, ih, List.filter_cons, if_pos (by simpa using hpx), List.map_cons]
      simp
    · rw [if_neg hpx, ih, List.filter_cons, if_neg (by simpa using hpx)]

theorem classifyScores_eq (t : Str) :
    classifyScores t =
      (CLASSIFICATION_PATTERNS.filter (fun cp =>
        cp.min_matches ≤ cp.keywords.countP (fun kw => hasSub kw (lowerS t)))).map
        (fun cp => (cp.name, cp.keywords.countP (fun kw => hasSub kw (lowerS t)))) := by
  rw [classifyScores]
  simpa using classifyScores_aux (lowerS t) CLASSIFICATION_PATTERNS []

theorem pyMaxSnd_mem : ∀ (rest : List (Str × Nat)) (s0 : Str × Nat),
    pyMaxSnd s0 rest ∈ s0 :: rest := by
  intro rest
  induction rest with
  | nil => intro s0; simp [pyMaxSnd]
  | cons kv rest ih =>
    intro s0
    rw [pyMaxSnd, List.foldl_cons]
    by_cases h : s0.2 < kv.2
    · rw [if_pos h]
      have := ih kv
      rw [pyMaxSnd] at this
      simp only [List.mem_cons] at this ⊢
      tauto
    · rw [if_neg h]
      have := ih s0
      rw [pyMaxSnd] at this
      simp only [List.mem_cons] at this ⊢
      tauto

theorem class_keywords_le8 : ∀ cp ∈ CLASSIFICATION_PATTERNS, cp.keywords.length ≤ 8 := by
  decide

/-- C10: for every input text the confidence returned by `classify_contract`
is at most 80: every keyword list has at most 8 entries, so the distinct
keyword count is at most 8, `count/10*100` is at most 80, and the
`min(100, ·)` cap never binds. -/
theorem C10_confidence_le_80 (t : Str) : (classify_contract t).confidence ≤ 80 := by
  rw [classify_contract]
  cases hs : classifyScores t with
  | nil => simp
  | cons s0 rest =>
    simp only
    have hmem : pyMaxSnd s0 rest ∈ s0 :: rest := pyMaxSnd_mem rest s0
    rw [← hs, classifyScores_eq] at hmem
    have hcount : (pyMaxSnd s0 rest).2 ≤ 8 := by
      obtain ⟨cp, hcp, heq⟩ := List.mem_map.mp hmem
      have h8 : cp.keywords.length ≤ 8 := class_keywords_le8 cp (List.mem_of_mem_filter hcp)
      have hc : cp.keywords.countP (fun kw => hasSub kw (lowerS t)) ≤ cp.keywords.length :=
        List.countP_le_length _
      rw [← heq]
      simp only
      omega
    calc min 100 ((pyMaxSnd s0 rest).2 * 100 / 10)
        ≤ (pyMaxSnd s0 rest).2 * 100 / 10 := Nat.min_le_right _ _
      _ ≤ 8 * 100 / 10 := Nat.div_le_div_right (Nat.mul_le_mul_right _ hcount)
      _ = 80 := by norm_num

/-- C9: on the empty string every analyzer returns its empty or default
result: no clauses, no definitions, an empty entity bundle, no risk
findings, score 0 with category Low Risk, and the General Contract
classification with confidence 0 and no matches. -/
theorem C9_empty_input :
    extract_clauses [] = [] ∧
    extract_definitions [] = [] ∧
    extract_entities [] = ⟨[], [], [], [], [], [], []⟩ ∧
    detect_risks [] = [] ∧
    calculate_risk_score [] = (0, str "Low Risk") ∧
    classify_contract [] =
      ⟨str "General Contract", 0, [], str "Contract of unknown type"⟩ := by
  decide

/-- C7: for every input text, the dates, jurisdictions, emails, phone
numbers, urls and parties lists of `extract_entities` contain no duplicate
entries, while the amounts list is the raw concatenation of the currency
and percentage matches with no deduplication and can contain repeated
pairs (as on the input `"$5 $5"`). -/
theorem C7_entity_dedup (t : Str) :
    (extract_entities t).dates.Nodup ∧
    (extract_entities t).jurisdictions.Nodup ∧
    (extract_entities t).emails.Nodup ∧
    (extract_entities t).phone_numbers.Nodup ∧
    (extract_entities t).urls.Nodup ∧
    (extract_entities t).parties.Nodup ∧
    (extract_entities t).amounts =
      (scanIter t.length (curAt t) id 0).map
        (fun x => (pySlice t x.1 x.2, str "Currency")) ++
      (scanIter t.length (pctAt t) id 0).map
        (fun x => (pySlice t x.1 x.2, str "Percentage")) ∧
    (extract_entities (str "$5 $5")).amounts =
      [(str "$5", str "Currency"), (str "$5", str "Currency")] := by
  refine ⟨?_, ?_, ?_, ?_, ?_, ?_, rfl, by decide⟩
  · exact List.nodup_dedup _
  · exact List.nodup_dedup _
  · exact List.nodup_dedup _
  · exact List.nodup_dedup _
  · exact List.nodup_dedup _
  · exact List.nodup_dedup _

/-! ## Risk-score lemmas -/

theorem countP_levels : ∀ (rs : List RiskFinding),
    (∀ r ∈ rs, r.risk_level = str "high" ∨ r.risk_level = str "medium" ∨
      r.risk_level = str "low") →
    rs.countP (fun r => r.risk_level == str "high") +
      rs.countP (fun r => r.risk_level == str "medium") +
      rs.countP (fun r => r.risk_level == str "low") = rs.length := by
  intro rs
  induction rs with
  | nil => intro _; simp
  | cons a l ih =>
    intro hlv
    have ha := hlv a (List.mem_cons_self a l)
    have hih := ih (fun r hr => hlv r (List.mem_cons_of_mem a hr))
    have e1 : (str "high" == str "medium") = false := by decide
    have e2 : (str "high" == str "low") = false := by decide
    have e3 : (str "medium" == str "high") = false := by decide
    have e4 : (str "medium" == str "low") = false := by decide
    have e5 : (str "low" == str "high") = false := by decide
    have e6 : (str "low" == str "medium") = false := by decide
    simp only [List.countP_cons, List.length_cons]
    rcases ha with h | h | h <;> rw [h] <;>
      simp [e1, e2, e3, e4, e5, e6] <;>
      omega

/-- C1: for every list of risk findings whose levels are among high, medium
and low, `calculate_risk_score` returns score 0 on the empty list and
otherwise `min(100, (30h + 15m + 5l) / (h + m + l))` (integer division),
and the returned category is High Risk exactly when the score is at
least 70, Medium Risk exactly when it is in `[40, 70)`, and Low Risk
exactly when it is below 40 (the empty case included). -/
theorem C1_risk_score_formula (rs : List RiskFinding)
    (hlv : ∀ r ∈ rs, r.risk_level = str "high" ∨ r.risk_level = str "medium" ∨
      r.risk_level = str "low") :
    (rs = [] → calculate_risk_score rs = (0, str "Low Risk")) ∧
    (rs ≠ [] →
      (calculate_risk_score rs).1 =
        min 100 ((rs.countP (fun r => r.risk_level == str "high") * 30 +
          rs.countP (fun r => r.risk_level == str "medium") * 15 +
          rs.countP (fun r => r.risk_level == str "low") * 5) /
          (rs.countP (fun r => r.risk_level == str "high") +
           rs.countP (fun r => r.risk_level == str "medium") +
           rs.countP (fun r => r.risk_level == str "low")))) ∧
    ((calculate_risk_score rs).2 = str "High Risk" ↔ 70 ≤ (calculate_risk_score rs).1) ∧
    ((calculate_risk_score rs).2 = str "Medium Risk" ↔
      (40 ≤ (calculate_risk_score rs).1 ∧ (calculate_risk_score rs).1 < 70)) ∧
    ((calculate_risk_score rs).2 = str "Low Risk" ↔ (calculate_risk_score rs).1 < 40) := by
  have hpart := countP_levels rs hlv
  cases rs with
  | nil =>
    exact ⟨fun _ => by decide, fun h => absurd rfl h, by decide, by decide, by decide⟩
  | cons a l =>
    have hden : max 1 (a :: l).length =
        (a :: l).countP (fun r => r.risk_level == str "high") +
        (a :: l).countP (fun r => r.risk_level == str "medium") +
        (a :: l).countP (fun r => r.risk_level == str "low") := by
      simp only [List.length_cons] at hpart ⊢
      omega
    have hcalc : calculate_risk_score (a :: l) =
        (min 100 (((a :: l).countP (fun r => r.risk_level == str "high") * 30 +
            (a :: l).countP (fun r => r.risk_level == str "medium") * 15 +
            (a :: l).countP (fun r => r.risk_level == str "low") * 5) /
            ((a :: l).countP (fun r => r.risk_level == str "high") +
             (a :: l).countP (fun r => r.risk_level == str "medium") +
             (a :: l).countP (fun r => r.risk_level == str "low"))),
         if 70 ≤ min 100 (((a :: l).countP (fun r => r.risk_level == str "high") * 30 +
            (a :: l).countP (fun r => r.risk_level == str "medium") * 15 +
            (a :: l).countP (fun r => r.risk_level == str "low") * 5) /
            ((a :: l).countP (fun r => r.risk_level == str "high") +
             (a :: l).countP (fun r => r.risk_level == str "medium") +
             (a :: l).countP (fun r => r.risk_level == str "low")))
         then str "High Risk"
         else if 40 ≤ min 100 (((a :: l).countP (fun r => r.risk_level == str "high") * 30 +
            (a :: l).countP (fun r => r.risk_level == str "medium") * 15 +
            (a :: l).countP (fun r => r.risk_level == str "low") * 5) /
            ((a :: l).countP (fun r => r.risk_level == str "high") +
             (a :: l).countP (fun r => r.risk_level == str "medium") +
             (a :: l).countP (fun r => r.risk_level == str "low")))
         then str "Medium Risk" else str "Low Risk") := by
      rw [calculate_risk_score]
      simp only [List.isEmpty_cons, Bool.false_eq_true, if_false]
      rw [hden]
      split_ifs <;> rfl
    refine ⟨fun h => by simp at h, fun _ => by rw [hcalc], ?_, ?_, ?_⟩ <;> rw [hcalc] <;>
      simp only <;> split_ifs with h1 h2 <;>
      constructor <;> intro hh <;>
      first
        | omega
        | (exact absurd hh (by decide))
        | rfl

/-- Witness for C1 at a concrete list: two medium findings, category Low
Risk below the 40 threshold. -/
theorem C1_risk_score_formula_witness :
    (∀ r ∈ [({ type := str "T", risk_level := str "medium", description := str "d", evidence := str "e", severity_score := 55 } : RiskFinding), ({ type := str "C", risk_level := str "medium", description := str "d", evidence := str "e", severity_score := 55 } : RiskFinding)], r.risk_level = str "high" ∨ r.risk_level = str "medium" ∨ r.risk_level = str "low") ∧
    ((calculate_risk_score [({ type := str "T", risk_level := str "medium", description := str "d", evidence := str "e", severity_score := 55 } : RiskFinding), ({ type := str "C", risk_level := str "medium", description := str "d", evidence := str "e", severity_score := 55 } : RiskFinding)]).2 = str "Low Risk" ↔
      (calculate_risk_score [({ type := str "T", risk_level := str "medium", description := str "d", evidence := str "e", severity_score := 55 } : RiskFinding), ({ type := str "C", risk_level := str "medium", description := str "d", evidence := str "e", severity_score := 55 } : RiskFinding)]).1 < 40) :=
  ⟨by decide, (C1_risk_score_formula _ (by decide)).2.2.2.2⟩

/-! ## Risk-detector structural lemmas -/

theorem foldl_dedup_mem {α : Type} [DecidableEq α] (g : Str → α) :
    ∀ (sent : List Str) (acc : List α),
      ∀ r ∈ sent.foldl (fun a s => if a.contains (g s) then a else a ++ [g s]) acc,
        r ∈ acc ∨ ∃ s ∈ sent, r = g s := by
  intro sent
  induction sent with
  | nil => intro acc r hr; exact Or.inl hr
  | cons s sent ih =>
    intro acc r hr
    rw [List.foldl_cons] at hr
    by_cases hc : acc.contains (g s)
    · rw [if_pos hc] at hr
      rcases ih acc r hr with h | ⟨s', hs', he⟩
      · exact Or.inl h
      · exact Or.inr ⟨s', List.mem_cons_of_mem _ hs', he⟩
    · rw [if_neg hc] at hr
      rcases ih (acc ++ [g s]) r hr with h | ⟨s', hs', he⟩
      · rcases List.mem_append.mp h with h | h
        · exact Or.inl h
        · simp only [List.mem_singleton] at h
          exact Or.inr ⟨s, List.mem_cons_self _ _, h⟩
      · exact Or.inr ⟨s', List.mem_cons_of_mem _ hs', he⟩

theorem detect_aux_mem (t : Str) :
    ∀ (l : List RiskPattern) (acc : List RiskFinding),
      ∀ r ∈ l.foldl (fun acc rp =>
        match scanKeywords (lowerS t) rp.keywords with
        | none => acc
        | some kw =>
          (find_sentence_with_keyword t kw).foldl (fun acc2 s =>
            if acc2.contains (mkRisk rp s) then acc2 else acc2 ++ [mkRisk rp s]) acc) acc,
      r ∈ acc ∨ ∃ rp ∈ l, ∃ s, r = mkRisk rp s := by
  intro l
  induction l with
  | nil => intro acc r hr; exact Or.inl hr
  | cons rp l ih =>
    intro acc r hr
    rw [List.foldl_cons] at hr
    cases hk : scanKeywords (lowerS t) rp.keywords with
    | none =>
      rw [hk] at hr
      simp only at hr
      rcases ih acc r hr with h | ⟨rp', hrp', s, he⟩
      · exact Or.inl h
      · exact Or.inr ⟨rp', List.mem_cons_of_mem _ hrp', s, he⟩
    | some kw =>
      rw [hk] at hr
      simp only at hr
      rcases ih _ r hr with h | ⟨rp', hrp', s, he⟩
      · rcases foldl_dedup_mem (mkRisk rp) (find_sentence_with_keyword t kw) acc r h with
          h2 | ⟨s, _, he⟩
        · exact Or.inl h2
        · exact Or.inr ⟨rp, List.mem_cons_self _ _, s, he⟩
      · exact Or.inr ⟨rp', List.mem_cons_of_mem _ hrp', s, he⟩

theorem detect_risks_levels (t : Str) :
    ∀ r ∈ detect_risks t,
      r.risk_level = str "high" ∨ r.risk_level = str "medium" ∨
        r.risk_level = str "low" := by
  have htab : ∀ rp ∈ RISK_PATTERNS,
      rp.risk_level = str "high" ∨ rp.risk_level = str "medium" ∨
        rp.risk_level = str "low" := by decide
  intro r hr
  rw [detect_risks] at hr
  rcases detect_aux_mem t RISK_PATTERNS [] r hr with h | ⟨rp, hrp, s, he⟩
  · simp at h
  · subst he
    exact htab rp hrp

/-- C2: for every input text, applying `calculate_risk_score` to the output
of `detect_risks` never reaches the Medium or High categories: the score is
the weighted level count divided by the number of findings with no clamping
(the `min(100, ·)` cap never binds), it is at most 30, and the category is
always Low Risk. -/
theorem C2_detector_score_low (t : Str) :
    calculate_risk_score (detect_risks t) =
      (((detect_risks t).countP (fun r => r.risk_level == str "high") * 30 +
        (detect_risks t).countP (fun r => r.risk_level == str "medium") * 15 +
        (detect_risks t).countP (fun r => r.risk_level == str "low") * 5) /
        max 1 (detect_risks t).length, str "Low Risk") ∧
    (calculate_risk_score (detect_risks t)).1 ≤ 30 := by
  have hlv := detect_risks_levels t
  have hpart := countP_levels _ hlv
  cases hrs : detect_risks t with
  | nil => exact ⟨by decide, by decide⟩
  | cons a l =>
    rw [hrs] at hlv hpart
    have hlen : 0 < (a :: l).length := by simp
    have hmax : max 1 (a :: l).length = (a :: l).length := by omega
    have hwsum : (a :: l).countP (fun r => r.risk_level == str "high") * 30 +
        (a :: l).countP (fun r => r.risk_level == str "medium") * 15 +
        (a :: l).countP (fun r => r.risk_level == str "low") * 5 ≤
        30 * (a :: l).length := by omega
    have hdiv : ((a :: l).countP (fun r => r.risk_level == str "high") * 30 +
        (a :: l).countP (fun r => r.risk_level == str "medium") * 15 +
        (a :: l).countP (fun r => r.risk_level == str "low") * 5) /
        max 1 (a :: l).length ≤ 30 := by
      rw [hmax]
      calc ((a :: l).countP (fun r => r.risk_level == str "high") * 30 +
          (a :: l).countP (fun r => r.risk_level == str "medium") * 15 +
          (a :: l).countP (fun r => r.risk_level == str "low") * 5) / (a :: l).length
          ≤ 30 * (a :: l).length / (a :: l).length := Nat.div_le_div_right hwsum
        _ = 30 := Nat.mul_div_cancel 30 hlen
    have hmin : min 100 (((a :: l).countP (fun r => r.risk_level == str "high") * 30 +
        (a :: l).countP (fun r => r.risk_level == str "medium") * 15 +
        (a :: l).countP (fun r => r.risk_level == str "low") * 5) /
        max 1 (a :: l).length) =
        ((a :: l).countP (fun r => r.risk_level == str "high") * 30 +
        (a :: l).countP (fun r => r.risk_level == str "medium") * 15 +
        (a :: l).countP (fun r => r.risk_level == str "low") * 5) /
        max 1 (a :: l).length := by
      apply Nat.min_eq_right
      omega
    have hcalc : calculate_risk_score (a :: l) =
        (((a :: l).countP (fun r => r.risk_level == str "high") * 30 +
          (a :: l).countP (fun r => r.risk_level == str "medium") * 15 +
          (a :: l).countP (fun r => r.risk_level == str "low") * 5) /
          max 1 (a :: l).length, str "Low Risk") := by
      rw [calculate_risk_score]
      simp only [List.isEmpty_cons, Bool.false_eq_true, if_false]
      rw [hmin, if_neg (by omega), if_neg (by omega)]
    exact ⟨hcalc, by rw [hcalc]; exact hdiv⟩

theorem pyMaxSnd_spec : ∀ (rest : List (Str × Nat)) (s0 : Str × Nat),
    (∀ kv ∈ s0 :: rest, kv.2 ≤ (pyMaxSnd s0 rest).2) ∧
    ∃ l1 l2, s0 :: rest = l1 ++ pyMaxSnd s0 rest :: l2 ∧
      ∀ kv ∈ l1, kv.2 < (pyMaxSnd s0 rest).2 := by
  intro rest
  induction rest with
  | nil =>
    intro s0
    refine ⟨?_, [], [], by simp [pyMaxSnd], by simp⟩
    intro kv hkv
    simp only [pyMaxSnd, List.foldl_nil]
    simp at hkv
    rw [hkv]
  | cons kv rest ih =>
    intro s0
    have hstep : pyMaxSnd s0 (kv :: rest) = pyMaxSnd (if s0.2 < kv.2 then kv else s0) rest := by
      rw [pyMaxSnd, pyMaxSnd, List.foldl_cons]
    by_cases h : s0.2 < kv.2
    · rw [if_pos h] at hstep
      obtain ⟨hbound, l1, l2, hdecomp, hless⟩ := ih kv
      have hkvle := hbound kv (List.mem_cons_self _ _)
      refine ⟨?_, s0 :: l1, l2, ?_, ?_⟩
      · intro x hx
        rw [hstep]
        rcases List.mem_cons.mp hx with rfl | hx'
        · omega
        · exact hbound x hx'
      · rw [hstep, List.cons_append, ← hdecomp]
      · intro x hx
        rw [hstep]
        rcases List.mem_cons.mp hx with rfl | hx'
        · omega
        · exact hless x hx'
    · rw [if_neg h] at hstep
      obtain ⟨hbound, l1, l2, hdecomp, hless⟩ := ih s0
      cases l1 with
      | nil =>
        simp only [List.nil_append] at hdecomp
        obtain ⟨hM', hl2⟩ := List.cons.inj hdecomp
        have hM : pyMaxSnd s0 rest = s0 := hM'.symm
        refine ⟨?_, [], kv :: rest, ?_, by simp⟩
        · intro x hx
          rw [hstep, hM]
          rcases List.mem_cons.mp hx with rfl | hx'
          · exact le_refl _
          · rcases List.mem_cons.mp hx' with rfl | hx''
            · omega
            · have := hbound x (List.mem_cons_of_mem _ hx'')
              rw [hM] at this
              exact this
        · rw [List.nil_append, hstep, hM]
      | cons y l1' =>
        rw [List.cons_append] at hdecomp
        obtain ⟨hy', htail⟩ := List.cons.inj hdecomp
        have hy : y = s0 := hy'.symm
        have hyless := hless y (List.mem_cons_self _ _)
        refine ⟨?_, s0 :: kv :: l1', l2, ?_, ?_⟩
        · intro x hx
          rw [hstep]
          rcases List.mem_cons.mp hx with rfl | hx'
          · exact hbound x (List.mem_cons_self _ _)
          · rcases List.mem_cons.mp hx' with rfl | hx''
            · rw [hy] at hyless
              omega
            · exact hbound x (List.mem_cons_of_mem _ hx'')
        · rw [hstep, List.cons_append, List.cons_append, ← htail]
        · intro x hx
          rw [hstep]
          rcases List.mem_cons.mp hx with rfl | hx'
          · rw [hy] at hyless
            omega
          · rcases List.mem_cons.mp hx' with rfl | hx''
            · rw [hy] at hyless
              omega
            · exact hless x (List.mem_cons_of_mem _ hx'')

theorem class_names_nodup : (CLASSIFICATION_PATTERNS.map ClassPattern.name).Nodup := by
  decide

/-- C5: for every input text, `classify_contract` includes a bucket in
`all_matches` exactly when its count of distinct keywords present in the
lowered text reaches the bucket's threshold (in declaration order); with no
qualifying bucket the result is the General Contract default with
confidence 0 and empty matches; otherwise the primary type is the
qualifying bucket with the greatest match count, ties broken by first
occurrence in declaration order, and the confidence is
`min(100, count/10*100)`. -/
theorem C5_classifier_spec (t : Str) :
    (classify_contract t).all_matches =
      (CLASSIFICATION_PATTERNS.filter (fun cp =>
        cp.min_matches ≤ cp.keywords.countP (fun kw => hasSub kw (lowerS t)))).map
        (fun cp => (cp.name, cp.keywords.countP (fun kw => hasSub kw (lowerS t)))) ∧
    (∀ cp ∈ CLASSIFICATION_PATTERNS,
      ((cp.name, cp.keywords.countP (fun kw => hasSub kw (lowerS t))) ∈
          (classify_contract t).all_matches ↔
        cp.min_matches ≤ cp.keywords.countP (fun kw => hasSub kw (lowerS t)))) ∧
    (classifyScores t = [] →
      classify_contract t =
        ⟨str "General Contract", 0, [], str "Contract of unknown type"⟩) ∧
    (classifyScores t ≠ [] →
      ∃ best l1 l2, classifyScores t = l1 ++ best :: l2 ∧
        (∀ kv ∈ classifyScores t, kv.2 ≤ best.2) ∧
        (∀ kv ∈ l1, kv.2 < best.2) ∧
        (classify_contract t).primary_type = best.1 ∧
        (classify_contract t).confidence = min 100 (best.2 * 100 / 10)) := by
  have hall : (classify_contract t).all_matches = classifyScores t := by
    rw [classify_contract]
    cases h : classifyScores t with
    | nil => simp
    | cons s0 rest => simp
  refine ⟨by rw [hall, classifyScores_eq], ?_, ?_, ?_⟩
  · intro cp hcp
    rw [hall, classifyScores_eq]
    constructor
    · intro hmem
      obtain ⟨cp', hcp', heq⟩ := List.mem_map.mp hmem
      have hname : cp'.name = cp.name := congrArg Prod.fst heq
      have hcp'mem : cp' ∈ CLASSIFICATION_PATTERNS := List.mem_of_mem_filter hcp'
      have : cp' = cp := List.inj_on_of_nodup_map class_names_nodup hcp'mem hcp hname
      subst this
      have := List.of_mem_filter hcp'
      simpa using this
    · intro hth
      apply List.mem_map.mpr
      exact ⟨cp, List.mem_filter.mpr ⟨hcp, by simpa using hth⟩, rfl⟩
  · intro hempty
    rw [classify_contract, hempty]
    decide
  · intro hne
    cases hscore : classifyScores t with
    | nil => exact absurd hscore hne
    | cons s0 rest =>
      obtain ⟨hbound, l1, l2, hdecomp, hless⟩ := pyMaxSnd_spec rest s0
      refine ⟨pyMaxSnd s0 rest, l1, l2, hdecomp, ?_, hless, ?_, ?_⟩
      · intro kv hkv
        exact hbound kv hkv
      · rw [classify_contract, hscore]
      · rw [classify_contract, hscore]

/-- Witness for C5 at concrete inputs: the Employment bucket qualifies on
`"employment employee employer"` and the empty text yields the General
Contract default. -/
theorem C5_classifier_spec_witness :
    (({ name := str "Employment",
          keywords := [str "employment", str "employee", str "employer", str "salary",
            str "compensation", str "work", str "position", str "job"],
          min_matches := 3 } : ClassPattern) ∈ CLASSIFICATION_PATTERNS) ∧
    classifyScores (str "employment employee employer") ≠ [] ∧
    classifyScores [] = [] ∧
    (∃ best l1 l2, classifyScores (str "employment employee employer") = l1 ++ best :: l2 ∧
      (∀ kv ∈ classifyScores (str "employment employee employer"), kv.2 ≤ best.2) ∧
      (∀ kv ∈ l1, kv.2 < best.2) ∧
      (classify_contract (str "employment employee employer")).primary_type = best.1 ∧
      (classify_contract (str "employment employee employer")).confidence =
        min 100 (best.2 * 100 / 10)) ∧
    classify_contract [] =
      ⟨str "General Contract", 0, [], str "Contract of unknown type"⟩ ∧
    ((({ name := str "Employment",
           keywords := [str "employment", str "employee", str "employer", str "salary",
             str "compensation", str "work", str "position", str "job"],
           min_matches := 3 } : ClassPattern).name,
      ({ name := str "Employment",
           keywords := [str "employment", str "employee", str "employer", str "salary",
             str "compensation", str "work", str "position", str "job"],
           min_matches := 3 } : ClassPattern).keywords.countP
          (fun kw => hasSub kw (lowerS (str "employment employee employer")))) ∈
        (classify_contract (str "employment employee employer")).all_matches ↔
      ({ name := str "Employment",
           keywords := [str "employment", str "employee", str "employer", str "salary",
             str "compensation", str "work", str "position", str "job"],
           min_matches := 3 } : ClassPattern).min_matches ≤
      ({ name := str "Employment",
           keywords := [str "employment", str "employee", str "employer", str "salary",
             str "compensation", str "work", str "position", str "job"],
           min_matches := 3 } : ClassPattern).keywords.countP
          (fun kw => hasSub kw (lowerS (str "employment employee employer")))) := by
  refine ⟨by decide, by decide, by decide, ?_, ?_, ?_⟩
  · exact (C5_classifier_spec (str "employment employee employer")).2.2.2 (by decide)
  · exact (C5_classifier_spec []).2.2.1 (by decide)
  · exact (C5_classifier_spec (str "employment employee employer")).2.1 _ (by decide)

theorem contains_eq_mem {α : Type} [DecidableEq α] {l : List α} {a : α} :
    l.contains a = true ↔ a ∈ l := by
  rw [List.contains_eq_any_beq]
  simp [List.any_eq_true, beq_iff_eq]

theorem contains_append_eq {α : Type} [DecidableEq α] (l1 l2 : List α) (a : α) :
    (l1 ++ l2).contains a = (l1.contains a || l2.contains a) := by
  rw [List.contains_eq_any_beq, List.contains_eq_any_beq, List.contains_eq_any_beq,
    List.any_append]

theorem foldl_dedup_append {α : Type} [DecidableEq α] (g : Str → α) (sent : List Str) :
    ∀ (acc1 acc2 : List α), (∀ s, g s ∉ acc1) →
      sent.foldl (fun a s => if a.contains (g s) then a else a ++ [g s]) (acc1 ++ acc2)
        = acc1 ++ sent.foldl (fun a s => if a.contains (g s) then a else a ++ [g s]) acc2 := by
  induction sent with
  | nil => intro acc1 acc2 _; simp
  | cons s sent ih =>
    intro acc1 acc2 hdis
    rw [List.foldl_cons, List.foldl_cons]
    have h1 : acc1.contains (g s) = false := by
      cases hc : acc1.contains (g s) with
      | false => rfl
      | true => exact absurd (contains_eq_mem.mp hc) (hdis s)
    rw [contains_append_eq, h1, Bool.false_or]
    by_cases hc2 : acc2.contains (g s)
    · rw [if_pos hc2, if_pos hc2]
      exact ih acc1 acc2 hdis
    · rw [if_neg hc2, if_neg hc2, List.append_assoc]
      exact ih acc1 (acc2 ++ [g s]) hdis

theorem foldl_dedup_nodup {α : Type} [DecidableEq α] (g : Str → α) :
    ∀ (sent : List Str) (acc : List α), acc.Nodup →
      (sent.foldl (fun a s => if a.contains (g s) then a else a ++ [g s]) acc).Nodup := by
  intro sent
  induction sent with
  | nil => intro acc h; exact h
  | cons s sent ih =>
    intro acc hacc
    rw [List.foldl_cons]
    by_cases hc : acc.contains (g s)
    · rw [if_pos hc]
      exact ih acc hacc
    · rw [if_neg hc]
      apply ih
      have hnm : g s ∉ acc := fun hm => hc (contains_eq_mem.mpr hm)
      simp [List.nodup_append, hacc, hnm]

theorem scanKeywords_eq_find (tl : Str) :
    ∀ (kws : List Str), scanKeywords tl kws = kws.find? (fun kw => hasSub kw tl) := by
  intro kws
  induction kws with
  | nil => rfl
  | cons kw rest ih =>
    rw [scanKeywords, List.find?]
    by_cases h : hasSub kw tl
    · rw [h, if_pos rfl]
    · rw [Bool.not_eq_true] at h
      rw [h, if_neg (by simp)]
      exact ih

theorem mem_riskBlockSpec {t : Str} {rp : RiskPattern} {r : RiskFinding}
    (hr : r ∈ riskBlockSpec t rp) : ∃ s, r = mkRisk rp s := by
  rw [riskBlockSpec] at hr
  cases hk : rp.keywords.find? (fun kw => hasSub kw (lowerS t)) with
  | none => rw [hk] at hr; simp at hr
  | some kw =>
    rw [hk] at hr
    simp only at hr
    rcases foldl_dedup_mem (mkRisk rp) (find_sentence_with_keyword t kw) [] r hr with
      h | ⟨s, _, he⟩
    · simp at h
    · exact ⟨s, he⟩

theorem riskBlockSpec_type {t : Str} {rp : RiskPattern} {r : RiskFinding}
    (hr : r ∈ riskBlockSpec t rp) : r.type = rp.name := by
  obtain ⟨s, rfl⟩ := mem_riskBlockSpec hr
  rfl

theorem riskBlockSpec_nodup (t : Str) (rp : RiskPattern) : (riskBlockSpec t rp).Nodup := by
  rw [riskBlockSpec]
  cases hk : rp.keywords.find? (fun kw => hasSub kw (lowerS t)) with
  | none => simp
  | some kw =>
    simp only
    exact foldl_dedup_nodup (mkRisk rp) (find_sentence_with_keyword t kw) [] (by simp)

theorem risk_names_nodup : (RISK_PATTERNS.map RiskPattern.name).Nodup := by decide

theorem detect_go_blocks (t : Str) :
    ∀ (l : List RiskPattern) (acc : List RiskFinding),
      (∀ rp ∈ l, ∀ r ∈ acc, r.type ≠ rp.name) →
      (l.map RiskPattern.name).Nodup →
      l.foldl (fun acc rp =>
        match scanKeywords (lowerS t) rp.keywords with
        | none => acc
        | some kw =>
          (find_sentence_with_keyword t kw).foldl (fun acc2 s =>
            if acc2.contains (mkRisk rp s) then acc2 else acc2 ++ [mkRisk rp s]) acc) acc
      = acc ++ (l.map (riskBlockSpec t)).flatten := by
  intro l
  induction l with
  | nil => intro acc _ _; simp
  | cons rp l ih =>
    intro acc hdis hnd
    rw [List.foldl_cons]
    have hblock : riskBlockSpec t rp =
        match scanKeywords (lowerS t) rp.keywords with
        | none => ([] : List RiskFinding)
        | some kw =>
          (find_sentence_with_keyword t kw).foldl (fun acc2 s =>
            if acc2.contains (mkRisk rp s) then acc2 else acc2 ++ [mkRisk rp s]) [] := by
      rw [riskBlockSpec, scanKeywords_eq_find]
    have hnd1 : (l.map RiskPattern.name).Nodup := (List.nodup_cons.mp (by simpa using hnd)).2
    have hname : rp.name ∉ l.map RiskPattern.name :=
      (List.nodup_cons.mp (by simpa using hnd)).1
    cases hk : scanKeywords (lowerS t) rp.keywords with
    | none =>
      rw [hk] at hblock
      simp only at hblock ⊢
      rw [ih acc (fun rp' hrp' => hdis rp' (List.mem_cons_of_mem _ hrp')) hnd1]
      rw [List.map_cons, List.flatten_cons, hblock]
      simp
    | some kw =>
      rw [hk] at hblock
      simp only at hblock ⊢
      have hsplit := foldl_dedup_append (mkRisk rp) (find_sentence_with_keyword t kw)
        acc [] (fun s hm => by
          have := hdis rp (List.mem_cons_self _ _) (mkRisk rp s) hm
          exact this rfl)
      rw [List.append_nil] at hsplit
      rw [hsplit, ← hblock]
      rw [ih (acc ++ riskBlockSpec t rp) ?_ hnd1]
      · rw [List.map_cons, List.flatten_cons, List.append_assoc]
      · intro rp' hrp' r hr
        rcases List.mem_append.mp hr with h | h
        · exact hdis rp' (List.mem_cons_of_mem _ hrp') r h
        · rw [riskBlockSpec_type h]
          intro he
          exact hname (he ▸ List.mem_map_of_mem RiskPattern.name hrp')

theorem detect_risks_eq_blocks (t : Str) :
    detect_risks t = (RISK_PATTERNS.map (riskBlockSpec t)).flatten := by
  rw [detect_risks]
  rw [detect_go_blocks t RISK_PATTERNS [] (by simp) risk_names_nodup]
  simp

theorem detect_risks_nodup (t : Str) : (detect_risks t).Nodup := by
  rw [detect_risks_eq_blocks, List.nodup_flatten]
  constructor
  · intro bl hbl
    obtain ⟨rp, _, rfl⟩ := List.mem_map.mp hbl
    exact riskBlockSpec_nodup t rp
  · have hpw : List.Pairwise (fun rp rp' : RiskPattern => rp.name ≠ rp'.name)
        RISK_PATTERNS := by decide
    apply List.Pairwise.map _ _ hpw
    intro rp rp' hne
    intro r hr hr'
    exact hne ((riskBlockSpec_type hr) ▸ (riskBlockSpec_type hr') ▸ rfl)

theorem detect_filter_block (t : Str) (rp : RiskPattern) :
    ∀ (l : List RiskPattern), (l.map RiskPattern.name).Nodup → rp ∈ l →
      ((l.map (riskBlockSpec t)).flatten).filter (fun r => r.type == rp.name) =
        riskBlockSpec t rp := by
  intro l
  induction l with
  | nil => intro _ h; simp at h
  | cons rp' l ih =>
    intro hnd hmem
    rw [List.map_cons, List.flatten_cons, List.filter_append]
    have hnd1 : (l.map RiskPattern.name).Nodup :=
      (List.nodup_cons.mp (by simpa using hnd)).2
    have hname : rp'.name ∉ l.map RiskPattern.name :=
      (List.nodup_cons.mp (by simpa using hnd)).1
    rcases List.mem_cons.mp hmem with rfl | hmem'
    · have hfilter1 : (riskBlockSpec t rp).filter (fun r => r.type == rp.name) =
          riskBlockSpec t rp := by
        apply List.filter_eq_self.mpr
        intro r hr
        simp [riskBlockSpec_type hr]
      have hfilter2 :
          ((l.map (riskBlockSpec t)).flatten).filter (fun r => r.type == rp.name) = [] := by
        apply List.filter_eq_nil.mpr
        intro r hr
        obtain ⟨bl, hbl, hrbl⟩ := List.mem_flatten.mp hr
        obtain ⟨rp'', hrp'', rfl⟩ := List.mem_map.mp hbl
        simp only [riskBlockSpec_type hrbl, beq_iff_eq]
        intro he
        exact hname (he ▸ List.mem_map_of_mem RiskPattern.name hrp'')
      rw [hfilter1, hfilter2, List.append_nil]
    · have hne : rp.name ≠ rp'.name := by
        intro he
        exact hname (he ▸ List.mem_map_of_mem RiskPattern.name hmem')
      have hfilter1 : (riskBlockSpec t rp').filter (fun r => r.type == rp.name) = [] := by
        apply List.filter_eq_nil.mpr
        intro r hr
        simp only [riskBlockSpec_type hr, beq_iff_eq]
        intro he
        exact hne he.symm
      rw [hfilter1, List.nil_append]
      exact ih hnd1 hmem'

theorem find_sentence_bounds (t kw : Str) :
    (find_sentence_with_keyword t kw).length ≤ 3 ∧
      ∀ s ∈ find_sentence_with_keyword t kw, s.length ≤ 300 := by
  constructor
  · rw [find_sentence_with_keyword]
    exact le_trans (le_of_eq (List.length_take _ _)) (min_le_left _ _)
  · intro s hs
    rw [find_sentence_with_keyword] at hs
    have hs' := List.mem_of_mem_take hs
    obtain ⟨x, _, hx⟩ := List.mem_filterMap.mp hs'
    simp only at hx
    by_cases he : (pyStrip (pySlice t x.1 x.2)).isEmpty
    · rw [if_pos he] at hx
      exact Option.noConfusion hx
    · rw [if_neg he] at hx
      have := Option.some.inj hx
      rw [← this]
      exact le_trans (le_of_eq (List.length_take _ _)) (min_le_left _ _)

theorem detect_risks_evidence (t : Str) :
    ∀ r ∈ detect_risks t, r.evidence.length ≤ 200 := by
  intro r hr
  rw [detect_risks_eq_blocks] at hr
  obtain ⟨bl, hbl, hrbl⟩ := List.mem_flatten.mp hr
  obtain ⟨rp, _, rfl⟩ := List.mem_map.mp hbl
  obtain ⟨s, rfl⟩ := mem_riskBlockSpec hrbl
  exact le_trans (le_of_eq (List.length_take _ _)) (min_le_left _ _)

/-- C4: for every input text, `detect_risks` is exactly the concatenation
over the risk categories, in declaration order, of the per-category block
`riskBlockSpec`: the first keyword of the category present in the lowered
text (first-hit-wins, remaining keywords not scanned) determines the
evidence sentences, with one finding per sentence and findings equal in
every field collapsed to one; the resulting list has no duplicate findings;
every stored evidence field has at most 200 characters; each category's
findings in the result are exactly its block; and the sentence extractor
returns at most 3 sentences, each of at most 300 characters. -/
theorem C4_detect_risks_spec (t : Str) :
    detect_risks t = (RISK_PATTERNS.map (riskBlockSpec t)).flatten ∧
    (detect_risks t).Nodup ∧
    (∀ r ∈ detect_risks t, r.evidence.length ≤ 200) ∧
    (∀ rp ∈ RISK_PATTERNS,
      (detect_risks t).filter (fun r => r.type == rp.name) = riskBlockSpec t rp) ∧
    (∀ kw, (find_sentence_with_keyword t kw).length ≤ 3 ∧
      ∀ s ∈ find_sentence_with_keyword t kw, s.length ≤ 300) := by
  refine ⟨detect_risks_eq_blocks t, detect_risks_nodup t, detect_risks_evidence t, ?_,
    fun kw => find_sentence_bounds t kw⟩
  intro rp hrp
  rw [detect_risks_eq_blocks]
  exact detect_filter_block t rp RISK_PATTERNS risk_names_nodup hrp

/-- Witness for C4 at a concrete input: the Termination Clauses category on
the text `"terminate."`. -/
theorem C4_detect_risks_spec_witness :
    (({ name := str "Termination Clauses",
        keywords := [str "termination", str "terminate", str "terminate for cause",
                     str "terminate without cause"],
        risk_level := str "medium",
        description := str "Clauses specifying termination rights" } : RiskPattern) ∈
        RISK_PATTERNS) ∧
    (detect_risks (str "terminate.")).filter
        (fun r => r.type == str "Termination Clauses") =
      riskBlockSpec (str "terminate.")
        { name := str "Termination Clauses",
          keywords := [str "termination", str "terminate", str "terminate for cause",
                       str "terminate without cause"],
          risk_level := str "medium",
          description := str "Clauses specifying termination rights" } ∧
    str "terminate." ∈ find_sentence_with_keyword (str "terminate.") (str "terminate") ∧
    (str "terminate.").length ≤ 300 := by
  refine ⟨by decide, ?_, by decide, ?_⟩
  · exact (C4_detect_risks_spec (str "terminate.")).2.2.2.1
      { name := str "Termination Clauses",
        keywords := [str "termination", str "terminate", str "terminate for cause",
                     str "terminate without cause"],
        risk_level := str "medium",
        description := str "Clauses specifying termination rights" } (by decide)
  · exact ((C4_detect_risks_spec (str "terminate.")).2.2.2.2 (str "terminate")).2
      (str "terminate.") (by decide)

set_option maxRecDepth 1000000 in
set_option maxHeartbeats 4000000 in
/-- C6: on the two-clause scenario text, `extract_clauses` returns exactly
two clauses numbered 1 and 2 with headings TERMINATION and CONFIDENTIALITY;
`detect_risks` returns findings only for the Termination Clauses and
Confidentiality categories (both medium, one finding each); and
`calculate_risk_score` on those findings returns 15 with category
Low Risk. -/
theorem C6_scenario :
    (extract_clauses (str "1. TERMINATION\nThis agreement may be terminated with 30 days notice.\n2. CONFIDENTIALITY\nAll information is confidential.")).map
        (fun c => (c.number, c.heading)) =
      [(str "1", str "TERMINATION"), (str "2", str "CONFIDENTIALITY")] ∧
    (detect_risks (str "1. TERMINATION\nThis agreement may be terminated with 30 days notice.\n2. CONFIDENTIALITY\nAll information is confidential.")).map
        (fun r => (r.type, r.risk_level)) =
      [(str "Termination Clauses", str "medium"), (str "Confidentiality", str "medium")] ∧
    calculate_risk_score (detect_risks (str "1. TERMINATION\nThis agreement may be terminated with 30 days notice.\n2. CONFIDENTIALITY\nAll information is confidential.")) =
      (15, str "Low Risk") := by
  have hd : detect_risks (str "1. TERMINATION\nThis agreement may be terminated with 30 days notice.\n2. CONFIDENTIALITY\nAll information is confidential.") =
      [⟨str "Termination Clauses", str "medium",
        str "Clauses specifying termination rights",
        str "1. TERMINATION\nThis agreement may be terminated with 30 days notice.", 55⟩,
       ⟨str "Confidentiality", str "medium",
        str "Confidentiality and NDA clauses",
        str "1. TERMINATION\nThis agreement may be terminated with 30 days notice.\n2. CONFIDENTIALITY\nAll information is confidential.", 55⟩] := by
    decide
  refine ⟨by decide, ?_, ?_⟩
  · rw [hd]
    decide
  · rw [hd]
    decide

theorem firstFrom_head {p : Nat → Bool} {j count : Nat} (hc : 0 < count)
    (hp : p j = true) : firstFrom p j count = some j := by
  match count, hc with
  | k + 1, _ => rw [firstFrom, if_pos hp]

theorem firstFrom_none_of {p : Nat → Bool} :
    ∀ (count j : Nat), (∀ q, j ≤ q → q < j + count → p q = false) →
      firstFrom p j count = none := by
  intro count
  induction count with
  | zero => intro j _; rfl
  | succ k ih =>
    intro j h
    rw [firstFrom, h j (le_refl _) (by omega)]
    simp only [Bool.false_eq_true, if_false]
    exact ih (j + 1) (fun q h1 h2 => h q (by omega) (by omega))

theorem firstDown_top {p : Nat → Bool} (lo k : Nat) (h : p (lo + k) = true) :
    firstDown p lo k = some (lo + k) := by
  cases k with
  | zero => rw [Nat.add_zero] at h ⊢; rw [firstDown, if_pos h]
  | succ k =>
    have h' : p (lo + k + 1) = true := by rw [Nat.add_assoc]; exact h
    rw [firstDown, if_pos h', Nat.add_assoc]

theorem firstDown_none_of {p : Nat → Bool} :
    ∀ (k lo : Nat), (∀ q, lo ≤ q → q ≤ lo + k → p q = false) →
      firstDown p lo k = none := by
  intro k
  induction k with
  | zero =>
    intro lo h
    rw [firstDown, h lo (le_refl _) (by omega)]
    simp
  | succ k ih =>
    intro lo h
    rw [firstDown, h (lo + k + 1) (by omega) (by omega)]
    simp only [Bool.false_eq_true, if_false]
    exact ih lo (fun q h1 h2 => h q h1 (by omega))

theorem pySpace_ne_dot {c : Char} (h : pySpace c = true) : (c != '.') = true := by
  simp only [bne_iff_ne, ne_eq]
  intro hc
  subst hc
  exact absurd h (by decide)

theorem pySpace_not_dot_at {c : Char} (h : pySpace c = true) : (c == '.') = false := by
  simp only [beq_eq_false_iff_ne, ne_eq]
  intro hc
  subst hc
  exact absurd h (by decide)

theorem dotAt_ws {t : Str} (u2 : Nat) {q : Nat} (h1 : u2 ≤ q)
    (h2 : q < u2 + runLen pySpace t u2) : dotAt t q = false := by
  obtain ⟨c, hc, hsp⟩ := runLen_get (p := pySpace) (t := t) (i := u2)
    (k := q - u2) (by omega)
  have he : u2 + (q - u2) = q := by omega
  rw [he] at hc
  rw [dotAt, hc, beq_eq_false_iff_ne]
  intro hcd
  have hcc : c = '.' := by injection hcd
  subst hcc
  exact absurd hsp (by decide)

theorem firstDown_defBT (t : Str) (u2 : Nat) :
    firstDown (defBT t u2) 0 (runLen pySpace t u2) =
      (match charAt t (u2 + runLen pySpace t u2) with
       | some c =>
         if c != '.' then
           if (firstFrom (dotAt t) (u2 + runLen pySpace t u2 + 1)
               (t.length - (u2 + runLen pySpace t u2 + 1))).isSome then
             some (runLen pySpace t u2)
           else none
         else if runLen pySpace t u2 != 0 then some (runLen pySpace t u2 - 1)
         else none
       | none => none) := by
  cases hc : charAt t (u2 + runLen pySpace t u2) with
  | none =>
    have hnle : t.length ≤ u2 + runLen pySpace t u2 := by
      by_contra hlt
      obtain ⟨c, hcc⟩ := charAt_of_lt (t := t) (i := u2 + runLen pySpace t u2)
        (by omega)
      rw [hc] at hcc
      exact Option.noConfusion hcc
    simp only
    apply firstDown_none_of
    intro q h1 h2
    rw [defBT]
    cases hq : charAt t (u2 + q) with
    | none => rfl
    | some c =>
      have hqlt : u2 + q < t.length := charAt_lt hq
      have hql : q < runLen pySpace t u2 := by omega
      simp only
      have hnone : firstFrom (dotAt t) (u2 + q + 1)
          (t.length - (u2 + q + 1)) = none := by
        apply firstFrom_none_of
        intro r hr1 hr2
        exact dotAt_ws u2 (by omega) (by omega)
      rw [hnone]
      simp
  | some c =>
    have hlt : u2 + runLen pySpace t u2 < t.length := charAt_lt hc
    simp only
    by_cases hdot : (c != '.') = true
    · rw [if_pos hdot]
      cases hsome : (firstFrom (dotAt t) (u2 + runLen pySpace t u2 + 1)
          (t.length - (u2 + runLen pySpace t u2 + 1))).isSome with
      | true =>
        rw [if_pos rfl]
        have hbt : defBT t u2 (runLen pySpace t u2) = true := by
          rw [defBT, hc]
          simp only
          rw [hdot, hsome]
          rfl
        have hh := firstDown_top (p := defBT t u2) 0 (runLen pySpace t u2)
          (by simpa using hbt)
        simpa using hh
      | false =>
        rw [if_neg (by simp)]
        have hffn : firstFrom (dotAt t) (u2 + runLen pySpace t u2 + 1)
            (t.length - (u2 + runLen pySpace t u2 + 1)) = none := by
          cases hff : firstFrom (dotAt t) (u2 + runLen pySpace t u2 + 1)
              (t.length - (u2 + runLen pySpace t u2 + 1)) with
          | none => rfl
          | some v => rw [hff] at hsome; simp at hsome
        apply firstDown_none_of
        intro q h1 h2
        rw [defBT]
        rcases Nat.eq_or_lt_of_le h2 with heq | hql
        · have heq' : q = runLen pySpace t u2 := by omega
          subst heq'
          rw [hc]
          simp only
          rw [hffn]
          simp
        · have hql' : q < runLen pySpace t u2 := by omega
          obtain ⟨c', hc', hsp⟩ := runLen_get (p := pySpace) (t := t)
            (i := u2) (k := q) hql'
          rw [hc']
          simp only
          have hnone : firstFrom (dotAt t) (u2 + q + 1)
              (t.length - (u2 + q + 1)) = none := by
            apply firstFrom_none_of
            intro r hr1 hr2
            rcases Nat.lt_trichotomy r (u2 + runLen pySpace t u2) with hr | hr | hr
            · exact dotAt_ws u2 (by omega) hr
            · subst hr
              rw [dotAt, hc, beq_eq_false_iff_ne]
              intro hcd
              have hcc : c = '.' := by injection hcd
              subst hcc
              simp at hdot
            · have hrn : r < t.length := by omega
              exact firstFrom_eq_none _ _ hffn r (by omega) (by omega)
          rw [hnone]
          simp
    · rw [if_neg hdot]
      have hceq : c = '.' := by
        rcases eq_or_ne c '.' with h | h
        · exact h
        · exact absurd (bne_iff_ne.mpr h) hdot
      by_cases hw0 : runLen pySpace t u2 = 0
      · rw [hw0]
        rw [if_neg (by simp)]
        rw [firstDown]
        have hbt0 : defBT t u2 0 = false := by
          rw [defBT]
          rw [hw0] at hc
          rw [hc]
          simp only
          subst hceq
          simp
        rw [hbt0]
        simp
      · rw [if_pos (by simp [hw0])]
        obtain ⟨m, hm⟩ : ∃ m, runLen pySpace t u2 = m + 1 :=
          ⟨runLen pySpace t u2 - 1, by omega⟩
        rw [hm]
        rw [hm] at hc hlt
        rw [firstDown]
        have hbtTop : defBT t u2 (0 + m + 1) = false := by
          have h01 : 0 + m + 1 = m + 1 := by omega
          rw [h01, defBT]
          rw [hc]
          simp only
          subst hceq
          simp
        rw [hbtTop]
        simp only [Bool.false_eq_true, if_false]
        have hbtm : defBT t u2 (0 + m) = true := by
          have h0m : 0 + m = m := by omega
          rw [h0m, defBT]
          obtain ⟨c', hc', hsp⟩ := runLen_get (p := pySpace) (t := t)
            (i := u2) (k := m) (by rw [hm]; omega)
          rw [hc']
          simp only
          have hd1 : (c' != '.') = true := pySpace_ne_dot hsp
          have hd2 : (firstFrom (dotAt t) (u2 + m + 1)
              (t.length - (u2 + m + 1))).isSome = true := by
            apply firstFrom_isSome _ _ (u2 + m + 1) (le_refl _)
            · omega
            · rw [dotAt]
              have he2 : u2 + m + 1 = u2 + (m + 1) := by omega
              rw [he2, hc]
              subst hceq
              simp
          rw [hd1, hd2]
          rfl
        have hh := firstDown_top (p := defBT t u2) 0 m hbtm
        rw [Nat.zero_add] at hh
        rw [hh]
        simp

theorem firstFrom_dot_back (t : Str) {u2 : Nat}
    (hc : dotAt t (u2 + runLen pySpace t u2) = true)
    (hw : runLen pySpace t u2 ≠ 0) :
    firstFrom (dotAt t) (u2 + (runLen pySpace t u2 - 1) + 1)
      (t.length - (u2 + (runLen pySpace t u2 - 1) + 1)) =
      some (u2 + runLen pySpace t u2) := by
  have hpl : u2 + runLen pySpace t u2 < t.length := by
    have hdc := hc
    rw [dotAt] at hdc
    exact charAt_lt (eq_of_beq hdc)
  have he : u2 + (runLen pySpace t u2 - 1) + 1 = u2 + runLen pySpace t u2 := by
    omega
  rw [he]
  exact firstFrom_head (by omega) hc

theorem defMatchAt_eq_spec (t : Str) (i : Nat) : defMatchAt t i = defSpecAt t i := by
  rw [defMatchAt, defSpecAt]
  cases hh : defHead t i with
  | none => rfl
  | some p =>
    obtain ⟨term, u2⟩ := p
    simp only
    rw [firstDown_defBT]
    cases hcp : charAt t (u2 + runLen pySpace t u2) with
    | none => rfl
    | some c =>
      simp only
      by_cases hdot : (c != '.') = true
      · rw [if_pos hdot, if_pos hdot, firstPeriod]
        cases hfp : firstFrom (dotAt t) (u2 + runLen pySpace t u2 + 1)
            (t.length - (u2 + runLen pySpace t u2 + 1)) with
        | some fp =>
          simp only [Option.isSome_some, eq_self_iff_true, if_true]
          rw [hfp]
        | none =>
          simp only [Option.isSome_none]
          rw [if_neg (by simp)]
      · rw [if_neg hdot, if_neg hdot]
        by_cases hw0 : (runLen pySpace t u2 != 0) = true
        · rw [if_pos hw0, if_pos hw0]
          simp only
          have hwne : runLen pySpace t u2 ≠ 0 := bne_iff_ne.mp hw0
          have hceq : c = '.' := by
            rcases eq_or_ne c '.' with h | h
            · exact h
            · exact absurd (bne_iff_ne.mpr h) hdot
          have hdotp : dotAt t (u2 + runLen pySpace t u2) = true := by
            rw [dotAt, hcp, hceq]
            simp
          rw [firstFrom_dot_back t hdotp hwne]
          have hee : u2 + (runLen pySpace t u2 - 1) =
              u2 + runLen pySpace t u2 - 1 := by omega
          rw [hee]
        · rw [if_neg hw0, if_neg hw0]

theorem lookupStr_cons_true {a : Str × Str} {l : List (Str × Str)} {k : Str}
    (h : (a.1 == k) = true) : lookupStr (a :: l) k = some a.2 := by
  simp [lookupStr, List.find?_cons, h]

theorem lookupStr_cons_false {a : Str × Str} {l : List (Str × Str)} {k : Str}
    (h : (a.1 == k) = false) : lookupStr (a :: l) k = lookupStr l k := by
  simp [lookupStr, List.find?_cons, h]

theorem map_overwrite_id (kx v : Str) :
    ∀ l : List (Str × Str), l.any (fun kv => kv.1 == kx) = false →
      l.map (fun kv => if kv.1 == kx then (kx, v) else kv) = l := by
  intro l
  induction l with
  | nil => intro _; rfl
  | cons a l ih =>
    intro h
    simp only [List.any_cons, Bool.or_eq_false_iff] at h
    rw [List.map_cons, if_neg (by simp [h.1]), ih h.2]

theorem lookupStr_overwrite (kx v k : Str) :
    ∀ acc : List (Str × Str), acc.any (fun kv => kv.1 == kx) = true →
      lookupStr (acc.map (fun kv => if kv.1 == kx then (kx, v) else kv)) k =
        if kx == k then some v else lookupStr acc k := by
  intro acc
  induction acc with
  | nil => intro h; simp at h
  | cons a l ih =>
    intro h
    by_cases ha : (a.1 == kx) = true
    · rw [List.map_cons, if_pos ha]
      by_cases hk : (kx == k) = true
      · rw [if_pos hk, lookupStr_cons_true hk]
      · have hkf : (kx == k) = false := by
          revert hk; cases (kx == k) <;> simp
        have hak : (a.1 == k) = false := by
          rw [eq_of_beq ha]; exact hkf
        rw [if_neg hk, lookupStr_cons_false hkf, lookupStr_cons_false hak]
        by_cases hl : l.any (fun kv => kv.1 == kx) = true
        · rw [ih hl, if_neg hk]
        · rw [map_overwrite_id kx v l (by revert hl; cases l.any _ <;> simp)]
    · rw [List.map_cons, if_neg ha]
      have haf : (a.1 == kx) = false := by
        revert ha; cases (a.1 == kx) <;> simp
      have hl : l.any (fun kv => kv.1 == kx) = true := by
        rw [List.any_cons, haf] at h
        simpa using h
      by_cases hk2 : (a.1 == k) = true
      · have hkk : ¬ ((kx == k) = true) := by
          intro hkx
          rw [beq_eq_false_iff_ne] at haf
          exact haf (by rw [eq_of_beq hk2, eq_of_beq hkx])
        rw [if_neg hkk, lookupStr_cons_true hk2, lookupStr_cons_true hk2]
      · have hk2f : (a.1 == k) = false := by
          revert hk2; cases (a.1 == k) <;> simp
        rw [lookupStr_cons_false hk2f, lookupStr_cons_false hk2f, ih hl]

theorem lookupStr_append_single (kx v k : Str) :
    ∀ acc : List (Str × Str), acc.any (fun kv => kv.1 == kx) = false →
      lookupStr (acc ++ [(kx, v)]) k =
        if kx == k then some v else lookupStr acc k := by
  intro acc
  induction acc with
  | nil =>
    intro _
    rw [List.nil_append]
    by_cases hk : (kx == k) = true
    · rw [if_pos hk, lookupStr_cons_true hk]
    · have hkf : (kx == k) = false := by
        revert hk; cases (kx == k) <;> simp
      rw [if_neg hk, lookupStr_cons_false hkf]
  | cons a l ih =>
    intro h
    simp only [List.any_cons, Bool.or_eq_false_iff] at h
    rw [List.cons_append]
    by_cases hk2 : (a.1 == k) = true
    · have hkk : ¬ ((kx == k) = true) := by
        intro hkx
        have haf := h.1
        rw [beq_eq_false_iff_ne] at haf
        exact haf (by rw [eq_of_beq hk2, eq_of_beq hkx])
      rw [if_neg hkk, lookupStr_cons_true hk2, lookupStr_cons_true hk2]
    · have hk2f : (a.1 == k) = false := by
        revert hk2; cases (a.1 == k) <;> simp
      rw [lookupStr_cons_false hk2f, lookupStr_cons_false hk2f, ih h.2]

theorem lookupStr_dictUpsert (acc : List (Str × Str)) (kx v k : Str) :
    lookupStr (dictUpsert acc kx v) k =
      if kx == k then some v else lookupStr acc k := by
  rw [dictUpsert]
  by_cases hany : acc.any (fun kv => kv.1 == kx) = true
  · rw [if_pos hany]
    exact lookupStr_overwrite kx v k acc hany
  · rw [if_neg hany]
    exact lookupStr_append_single kx v k acc
      (by revert hany; cases acc.any _ <;> simp)

theorem find?_append_or {α : Type} (p : α → Bool) :
    ∀ (l1 l2 : List α), (l1 ++ l2).find? p = (l1.find? p).or (l2.find? p) := by
  intro l1
  induction l1 with
  | nil => intro l2; simp
  | cons a l ih =>
    intro l2
    rw [List.cons_append]
    by_cases hp : p a = true
    · rw [List.find?_cons_of_pos _ hp, List.find?_cons_of_pos _ hp]
      simp
    · have hpf : p a = false := by revert hp; cases p a <;> simp
      rw [List.find?_cons_of_neg _ (by simp [hpf]),
        List.find?_cons_of_neg _ (by simp [hpf]), ih]

theorem lookupStr_foldl_upsert (k : Str) :
    ∀ (M : List (Nat × Str × Str × Nat)) (acc : List (Str × Str)),
      lookupStr (M.foldl (fun a x => dictUpsert a x.2.1 x.2.2.1) acc) k =
        ((M.reverse.find? (fun x => x.2.1 == k)).map (fun x => x.2.2.1)).or
          (lookupStr acc k) := by
  intro M
  induction M with
  | nil => intro acc; simp
  | cons x M ih =>
    intro acc
    rw [List.foldl_cons, ih, List.reverse_cons, find?_append_or,
      lookupStr_dictUpsert]
    by_cases hk : (x.2.1 == k) = true
    · rw [if_pos hk]
      cases hfm : M.reverse.find? (fun x => x.2.1 == k) with
      | some y => simp [hfm]
      | none => simp [hfm, List.find?_cons, hk]
    · have hkf : (x.2.1 == k) = false := by revert hk; cases (x.2.1 == k) <;> simp
      rw [if_neg hk]
      cases hfm : M.reverse.find? (fun x => x.2.1 == k) with
      | some y => simp [hfm]
      | none => simp [hfm, List.find?_cons, hkf]

/-- C8 counterexample: in `"A" means x "B" is y.` the term `B` appears in
double quotes immediately followed by the trigger word `is`, yet the
extracted dictionary does not map `B` at all: the match for `A` captures
everything up to the first period (swallowing the occurrence of `B`), and
the scan resumes only after a match ends, so overlapping occurrences are
skipped. -/
theorem C8_counterexample :
    extract_definitions (str "\"A\" means x \"B\" is y.") =
      [(str "A", str "x \"B\" is y.")] ∧
    lookupStr (extract_definitions (str "\"A\" means x \"B\" is y.")) (str "B") =
      none := by
  decide

/-- C8 (amended): `extract_definitions` builds its dictionary from exactly
the left-to-right non-overlapping matches of the definition pattern
(quoted term, optional whitespace, case-insensitive trigger word, optional
whitespace, then text up to and including the next period — stepping one
whitespace character back when a period directly follows the whitespace —
with both captures stripped; occurrences starting inside an earlier match
are skipped), inserted in document order; looking up any term yields the
definition of its last match in document order (last-write-wins), and
`none` for terms with no surviving match. -/
theorem C8_definitions_lastwrite (t : Str) :
    extract_definitions t =
      (defMatchesSpec t).foldl (fun acc x => dictUpsert acc x.2.1 x.2.2.1) [] ∧
    ∀ k : Str, lookupStr (extract_definitions t) k =
      ((defMatchesSpec t).reverse.find? (fun x => x.2.1 == k)).map
        (fun x => x.2.2.1) := by
  have he : defMatchAt t = defSpecAt t := funext (defMatchAt_eq_spec t)
  have hs : scanIter t.length (defMatchAt t) (fun m => m.2.2) 0 =
      defMatchesSpec t := by
    rw [defMatchesSpec, he]
  constructor
  · rw [extract_definitions, hs]
  · intro k
    rw [extract_definitions, hs, lookupStr_foldl_upsert]
    simp [lookupStr]
